import Mathlib

/-
Verification of the pyon resource/association graph layer
(`pyon/datastore/couchdb/datastore.py` and `pyon/datastore/couchbase/views.py`).

The datastore is modelled shallowly:
- documents are Lean structures (`Resource`, `Assoc`);
- a CouchDB view is the list of `(key, value)` emissions of its map function
  over every document in the store, sorted by the store's key collation
  (numbers sort before strings; strings compare lexicographically by code
  point; composite array keys compare element-wise with shorter prefixes
  first);
- a range query `view[key:endkey]` is a filter keeping the rows whose key
  lies between the bounds in collation order;
- Python exceptions (`BadRequest`, `NotFound`) become an `Except` error type.

External collaborators (the serializer, the type registry `getextends`, the
predicate registry, the lifecycle state machine) are parameters of the
definitions that use them.
-/

/-- Code-point comparison of characters, the base of string collation. -/
def charLE (a b : Char) : Bool := a.toNat ≤ b.toNat

/-- Lexicographic comparison of character lists. -/
def lexCharLE : List Char → List Char → Bool
  | [], _ => true
  | _ :: _, [] => false
  | a :: as, b :: bs => if a = b then lexCharLE as bs else charLE a b

/-- Lexicographic string comparison (by code points). -/
def strLE (a b : String) : Bool := lexCharLE a.data b.data

/-- Split a character list on a separator character; always returns at least
one chunk, like Python's `str.split` and JavaScript's `String.split` with a
non-empty separator. -/
def splitChar (c : Char) : List Char → List (List Char)
  | [] => [[]]
  | x :: xs =>
    let r := splitChar c xs
    if x = c then [] :: r
    else
      match r with
      | [] => [[x]]
      | y :: ys => (x :: y) :: ys

/-- `s.split(c)` on strings. -/
def splitStr (s : String) (c : Char) : List String :=
  (splitChar c s.data).map (fun l => ⟨l⟩)

/-- First `n` characters of a string (JavaScript `String.substring(0, n)`). -/
def strTake (s : String) (n : Nat) : String := ⟨s.data.take n⟩

/-- One element of a composite index key: CouchDB keys are JSON values; the
views under study only emit numbers and strings. `emax` is the maximal
sentinel appended by `_get_endkey` (the `END_MARKER` object), which the
store's collation places after every real key element. -/
inductive KElem where
  | num (n : Nat)
  | str (s : String)
  | emax
deriving DecidableEq, Repr

/-- A composite index key: an ordered sequence of sortable primitives. -/
abbrev Key := List KElem

/-- Collation on key elements: numbers sort before strings, and the
`END_MARKER` sentinel sorts after everything. -/
def kelemLE : KElem → KElem → Bool
  | .num a, .num b => a ≤ b
  | .num _, .str _ => true
  | .num _, .emax => true
  | .str _, .num _ => false
  | .str a, .str b => strLE a b
  | .str _, .emax => true
  | .emax, .emax => true
  | .emax, .num _ => false
  | .emax, .str _ => false

/-- Collation on composite keys: element-wise, a shorter key sorting before
every longer key it is a prefix of. -/
def keyLE : Key → Key → Bool
  | [], _ => true
  | _ :: _, [] => false
  | a :: as, b :: bs => if a = b then keyLE as bs else kelemLE a b

/-- A row of a view query result: document id, emitted key, emitted value. -/
structure VRow (α : Type) where
  rid : String
  key : Key
  val : α
deriving DecidableEq, Repr

/-- The store's range query over a view: all rows whose key lies between
`startkey` and `endkey` inclusive, in collation order. -/
def rangeScan {α : Type} (startkey endkey : Key) (rows : List (VRow α)) : List (VRow α) :=
  rows.filter fun row => keyLE startkey row.key && keyLE row.key endkey

/-- Modelled from the spec: `_get_endkey` of the base store (not under
`src/`) appends a terminal maximal sentinel (`END_MARKER`) to the key
components, so that the inclusive range `[key, endkey]` covers every key
extending the given prefix. -/
def getEndkey (key : Key) : Key := key ++ [KElem.emax]

/-- The slice `view[key:endkey]` with `endkey = _get_endkey(key)`: the
prefix range scan used by every find operation. -/
def prefixScan {α : Type} (key : Key) (rows : List (VRow α)) : List (VRow α) :=
  rangeScan key (getEndkey key) rows

/-- Rows of a view as returned by the store: the emissions sorted by key
collation. -/
def sortRows {α : Type} (rows : List (VRow α)) : List (VRow α) :=
  List.insertionSort (fun a b => keyLE a.key b.key = true) rows

/-- The pyon exception taxonomy relevant to this core. -/
inductive PyErr where
  | badRequest (msg : String)
  | notFound (msg : String)
deriving DecidableEq, Repr

/-- An ION resource document. Required fields per the data model; the
optional JSON fields (`keywords`, `alt_ids`, `uirefid`) are modelled as
possibly empty, matching JavaScript falsiness of `[]`/`""` absence. -/
structure Resource where
  rid : String
  type_ : String
  lcstate : String
  availability : String
  name : String
  keywords : List String
  alt_ids : List String
  uirefid : String
deriving DecidableEq, Repr

/-- An Association document: a directed typed edge. Field names follow the
persisted document (`s`/`st`/`p`/`o`/`ot`/`ts`/`retired`). -/
structure Assoc where
  rid : String
  s : String
  st : String
  p : String
  o : String
  ot : String
  ts : Nat
  retired : Bool
deriving DecidableEq, Repr

/-- A resolved document reference as used by `create_association`: an
already-persisted IonObject carrying `_id` and its concrete type.
`rid = ""` models a missing `_id`. -/
structure IonRef where
  rid : String
  rtype : String
deriving DecidableEq, Repr

/-- A predicate definition: allowed subject types (`domain`) and allowed
object types (`range`). -/
structure PredDef where
  domain : List String
  range : List String
deriving DecidableEq, Repr

/-- The static type metadata consulted by `create_association`: the
predicate registry (`Predicates.get`) and the type-extension closure
(`getextends` from `pyon.core.registry`), both external collaborators. -/
structure TypeEnv where
  preds : String → Option PredDef
  getextends : String → List String

/-- The endpoint type check of `create_association`: the concrete type is a
member of the allowed set, or appears in the `getextends` closure of some
allowed type. -/
def predTypeOk (env : TypeEnv) (t : String) (allowed : List String) : Bool :=
  allowed.contains t || allowed.any fun d => (env.getextends d).contains t

/-- Map function of view `resource/by_type`: emits `[type_, name]` (name
truncated to 200 characters) for every resource with a truthy type that is
not retired. `lcstate` and `name` are required resource fields, so the
JavaScript `!= undefined` guards always pass. -/
def byTypeEmit (r : Resource) : List (VRow Unit) :=
  if r.type_ ≠ "" ∧ r.lcstate ≠ "RETIRED" then
    [⟨r.rid, [KElem.str r.type_, KElem.str (strTake r.name 200)], ()⟩]
  else []

/-- The `resource/by_type` view over a store. -/
def byTypeRows (store : List Resource) : List (VRow Unit) :=
  sortRows (store.flatMap byTypeEmit)

/-- Map function of view `resource/by_lcstate`: two emissions per resource,
`[0, lcstate, type_, name]` (maturity axis) and
`[1, availability, type_, name]` (availability axis). -/
def byLcstateEmit (r : Resource) : List (VRow Unit) :=
  if r.type_ ≠ "" then
    [⟨r.rid, [KElem.num 0, KElem.str r.lcstate, KElem.str r.type_,
              KElem.str (strTake r.name 200)], ()⟩,
     ⟨r.rid, [KElem.num 1, KElem.str r.availability, KElem.str r.type_,
              KElem.str (strTake r.name 200)], ()⟩]
  else []

/-- The `resource/by_lcstate` view over a store. -/
def byLcstateRows (store : List Resource) : List (VRow Unit) :=
  sortRows (store.flatMap byLcstateEmit)

/-- Key emitted by `resource/by_altid` for one `alt_ids` entry: if the entry
splits on `":"` into exactly two parts `ns:value` the key is
`[value, ns]`; every other entry falls back to `[entry, "_"]`. -/
def altIdKey (altid : String) : Key :=
  let parts := splitStr altid ':'
  if parts.length = 2 then
    [KElem.str (parts.getD 1 ""), KElem.str (parts.getD 0 "")]
  else
    [KElem.str altid, KElem.str "_"]

/-- Map function of view `resource/by_altid`: one emission per `alt_ids`
entry of a non-retired resource; resources without `alt_ids` but with a
truthy `uirefid` emit `[uirefid, "UIREFID"]` instead. -/
def byAltidEmit (r : Resource) : List (VRow Unit) :=
  if r.type_ ≠ "" ∧ r.alt_ids ≠ [] ∧ r.lcstate ≠ "RETIRED" then
    r.alt_ids.map fun a => ⟨r.rid, altIdKey a, ()⟩
  else if r.type_ ≠ "" ∧ r.uirefid ≠ "" ∧ r.lcstate ≠ "RETIRED" then
    [⟨r.rid, [KElem.str r.uirefid, KElem.str "UIREFID"], ()⟩]
  else []

/-- The `resource/by_altid` view over a store. -/
def byAltidRows (store : List Resource) : List (VRow Unit) :=
  sortRows (store.flatMap byAltidEmit)

/-- String at position `i` of a composite key (Python `row['key'][i]`,
applied only to keys whose `i`-th component is a string). -/
def keyStrAt (k : Key) (i : Nat) : String :=
  match k.get? i with
  | some (.str s) => s
  | _ => ""

/-- Result entry of `find_res_by_type`:
`dict(type=key[0], name=key[1], id=row.id)`. -/
structure ResAssocT where
  rtype : String
  rname : String
  rid : String
deriving DecidableEq, Repr

/-- Result entry of `find_res_by_lcstate`:
`dict(lcstate=key[1], type=key[2], name=key[3], id=row.id)`. -/
structure ResAssocL where
  lcstate : String
  rtype : String
  rname : String
  rid : String
deriving DecidableEq, Repr

/-- Result entry of `find_res_by_alternative_id`:
`dict(alt_id=key[0], alt_id_ns=key[1], id=row.id)`. -/
structure ResAssocA where
  alt_id : String
  alt_id_ns : String
  rid : String
deriving DecidableEq, Repr

/-- `find_res_by_type(restype, lcstate)`: rejects a non-empty `lcstate`;
with a non-empty `restype` runs the prefix range scan `[restype]` over
`resource/by_type`, otherwise returns the whole index. The returned
entries re-assemble the index key; the id-only result is their `rid`
projection. Pagination arguments are forwarded to the store and not
modelled. -/
def find_res_by_type (store : List Resource) (restype lcstate : String) :
    Except PyErr (List ResAssocT) :=
  if lcstate ≠ "" then
    .error (.badRequest "lcstate not supported anymore in find_res_by_type")
  else
    let view := byTypeRows store
    let rows := if restype ≠ "" then prefixScan [KElem.str restype] view else view
    .ok (rows.map fun row => ⟨keyStrAt row.key 0, keyStrAt row.key 1, row.rid⟩)

/-- `find_res_by_lcstate(lcstate, restype)`: a caller state containing `_`
is truncated to the part before the first `_` (with a logged warning,
returned here as the first component); the scan key is
`[1, state]` when the state is an availability state, else `[0, state]`,
with `restype` appended when supplied. The availability state set
(`CommonResourceLifeCycleSM.AVAILABILITY`, an external constant) is a
parameter. Returns (warned, scan key, result entries). -/
def find_res_by_lcstate (avail : List String) (store : List Resource)
    (lcstate restype : String) : Bool × Key × List ResAssocL :=
  let warned := lcstate.data.contains '_'
  let lc := if warned then (splitStr lcstate '_').headD lcstate else lcstate
  let key :=
    (if avail.contains lc then [KElem.num 1, KElem.str lc]
     else [KElem.num 0, KElem.str lc]) ++
    (if restype ≠ "" then [KElem.str restype] else [])
  let rows := prefixScan key (byLcstateRows store)
  (warned, key,
   rows.map fun row =>
     ⟨keyStrAt row.key 1, keyStrAt row.key 2, keyStrAt row.key 3, row.rid⟩)

/-- Python truthiness of an optional string argument (`None` and `""` are
falsy). -/
def optTruthy : Option String → Bool
  | some s => s ≠ ""
  | none => false

/-- `find_res_by_alternative_id(alt_id, alt_id_ns)`: scan key `[alt_id]`,
extended with `alt_id_ns` when that argument is not `None` (Python checks
`is not None`, hence the `Option`); when `alt_id_ns` is truthy and `alt_id`
absent the scanned rows are post-filtered on the namespace component. -/
def find_res_by_alternative_id (store : List Resource) (alt_id : String)
    (alt_id_ns : Option String) : List ResAssocA :=
  let key : Key :=
    if alt_id ≠ "" then
      [KElem.str alt_id] ++
      (match alt_id_ns with | some ns => [KElem.str ns] | none => [])
    else []
  let rows := prefixScan key (byAltidRows store)
  if optTruthy alt_id_ns = true ∧ alt_id = "" then
    (rows.filter fun row => keyStrAt row.key 1 = alt_id_ns.getD "").map
      fun row => ⟨keyStrAt row.key 0, keyStrAt row.key 1, row.rid⟩
  else
    rows.map fun row => ⟨keyStrAt row.key 0, keyStrAt row.key 1, row.rid⟩

/-- Map function of view `association/by_sub`: `[s, p, ot, o] -> doc` for
every non-retired association. -/
def bySubEmit (a : Assoc) : List (VRow Assoc) :=
  if a.retired = false then
    [⟨a.rid, [KElem.str a.s, KElem.str a.p, KElem.str a.ot, KElem.str a.o], a⟩]
  else []

/-- The `association/by_sub` view over the associations of a store. -/
def bySubRows (assocs : List Assoc) : List (VRow Assoc) :=
  sortRows (assocs.flatMap bySubEmit)

/-- Map function of view `association/by_obj`: `[o, p, st, s] -> doc`. -/
def byObjEmit (a : Assoc) : List (VRow Assoc) :=
  if a.retired = false then
    [⟨a.rid, [KElem.str a.o, KElem.str a.p, KElem.str a.st, KElem.str a.s], a⟩]
  else []

/-- The `association/by_obj` view over the associations of a store. -/
def byObjRows (assocs : List Assoc) : List (VRow Assoc) :=
  sortRows (assocs.flatMap byObjEmit)

/-- Map function of view `association/by_match`: `[s, o, p] -> doc`. -/
def byMatchEmit (a : Assoc) : List (VRow Assoc) :=
  if a.retired = false then
    [⟨a.rid, [KElem.str a.s, KElem.str a.o, KElem.str a.p], a⟩]
  else []

/-- The `association/by_match` view over the associations of a store. -/
def byMatchRows (assocs : List Assoc) : List (VRow Assoc) :=
  sortRows (assocs.flatMap byMatchEmit)

/-- Map function of view `association/by_id`: two scalar-keyed emissions per
non-retired association, one for each side (modelled as singleton keys; the
view is only used with exact multi-key lookups, never range scans). -/
def byIdEmit (a : Assoc) : List (VRow Assoc) :=
  if a.retired = false then
    [⟨a.rid, [KElem.str a.s], a⟩, ⟨a.rid, [KElem.str a.o], a⟩]
  else []

/-- The `association/by_id` view over the associations of a store. -/
def byIdRows (assocs : List Assoc) : List (VRow Assoc) :=
  sortRows (assocs.flatMap byIdEmit)

/-- Map function of view `association/by_idpred`: `[s, p]` and `[o, p]`. -/
def byIdpredEmit (a : Assoc) : List (VRow Assoc) :=
  if a.retired = false then
    [⟨a.rid, [KElem.str a.s, KElem.str a.p], a⟩,
     ⟨a.rid, [KElem.str a.o, KElem.str a.p], a⟩]
  else []

/-- The `association/by_idpred` view over the associations of a store. -/
def byIdpredRows (assocs : List Assoc) : List (VRow Assoc) :=
  sortRows (assocs.flatMap byIdpredEmit)

/-- Map function of view `association/by_pred`: `[p, s, o] -> doc`. -/
def byPredEmit (a : Assoc) : List (VRow Assoc) :=
  if a.retired = false then
    [⟨a.rid, [KElem.str a.p, KElem.str a.s, KElem.str a.o], a⟩]
  else []

/-- The `association/by_pred` view over the associations of a store. -/
def byPredRows (assocs : List Assoc) : List (VRow Assoc) :=
  sortRows (assocs.flatMap byPredEmit)

/-- The `anyside` argument of `find_associations`: absent, a single id, or
a list of ids. (Lists of `(id, predicate)` pairs, also accepted by the
source, are not needed by any claim and are not modelled.) -/
inductive AnyArg where
  | noArg
  | one (i : String)
  | many (l : List String)
deriving DecidableEq, Repr

/-- Python truthiness of the `anyside` argument (`""` and `[]` are falsy). -/
def anyTruthy : AnyArg → Bool
  | .noArg => false
  | .one i => i ≠ ""
  | .many l => !l.isEmpty

/-- Whether `anyside` is a list (`type(anyside) in (list, tuple)`). -/
def anyIsMany : AnyArg → Bool
  | .many _ => true
  | _ => false

/-- The store's exact multi-key lookup (`keys=[...]`): for each requested
key in order, the rows emitted with exactly that key. -/
def multiKeyRows (ids : List String) (rows : List (VRow Assoc)) : List (VRow Assoc) :=
  ids.flatMap fun i => rows.filter fun row => row.key = [KElem.str i]

/-- `find_associations(subject, predicate, obj, anyside)` (id-only flag and
pagination omitted; the id-only result is the `rid` projection of the
returned associations). Arguments `subject`/`predicate`/`obj` are document
ids with `""` for an absent (falsy) argument. Branches on the supplied
combination exactly as the source: `by_match`, `by_sub`, `by_obj`,
`by_idpred`/`by_id`, `by_pred`. The match arms marked unreachable are
excluded by the argument validations above them. -/
def find_associations (assocs : List Assoc) (subject predicate obj : String)
    (anyside : AnyArg) : Except PyErr (List Assoc) :=
  if subject = "" ∧ obj = "" ∧ predicate = "" ∧ anyTruthy anyside = false then
    .error (.badRequest "Illegal parameters: No S/P/O or anyside")
  else if anyTruthy anyside ∧ (subject ≠ "" ∨ obj ≠ "") then
    .error (.badRequest "Illegal parameters: anyside cannot be combined with S/O")
  else if anyTruthy anyside ∧ predicate ≠ "" ∧ anyIsMany anyside then
    .error (.badRequest "Illegal parameters: anyside list cannot be combined with P")
  else if subject ≠ "" ∧ obj ≠ "" then
    let key := [KElem.str subject, KElem.str obj] ++
      (if predicate ≠ "" then [KElem.str predicate] else [])
    .ok ((prefixScan key (byMatchRows assocs)).map (·.val))
  else if subject ≠ "" then
    let key := [KElem.str subject] ++
      (if predicate ≠ "" then [KElem.str predicate] else [])
    .ok ((prefixScan key (bySubRows assocs)).map (·.val))
  else if obj ≠ "" then
    let key := [KElem.str obj] ++
      (if predicate ≠ "" then [KElem.str predicate] else [])
    .ok ((prefixScan key (byObjRows assocs)).map (·.val))
  else if anyTruthy anyside then
    if predicate ≠ "" then
      match anyside with
      | .one i =>
        .ok ((prefixScan [KElem.str i, KElem.str predicate] (byIdpredRows assocs)).map (·.val))
      | _ => .error (.badRequest "Illegal arguments")
    else
      match anyside with
      | .one i => .ok ((multiKeyRows [i] (byIdRows assocs)).map (·.val))
      | .many l => .ok ((multiKeyRows l (byIdRows assocs)).map (·.val))
      | .noArg => .error (.badRequest "Illegal arguments")
  else if predicate ≠ "" then
    .ok ((prefixScan [KElem.str predicate] (byPredRows assocs)).map (·.val))
  else
    .error (.badRequest "Illegal arguments")

/-- `find_objects(subject, predicate, object_type)`: one-hop traversal on
the subject side. Validates the argument combination, builds the prefix
key `[subject_id, predicate?, object_type?]` and scans
`association/by_sub`; returns `(object ids, matching associations)`. -/
def find_objects (assocs : List Assoc) (subject predicate object_type : String) :
    Except PyErr (List String × List Assoc) :=
  if subject = "" then .error (.badRequest "Must provide subject")
  else if object_type ≠ "" ∧ predicate = "" then
    .error (.badRequest "Cannot provide object type without a predictate")
  else
    let key := [KElem.str subject] ++
      (if predicate ≠ "" then
        [KElem.str predicate] ++
        (if object_type ≠ "" then [KElem.str object_type] else [])
       else [])
    let obj_assocs := (prefixScan key (bySubRows assocs)).map (·.val)
    .ok (obj_assocs.map (·.o), obj_assocs)

/-- `find_subjects(subject_type, predicate, obj)`: one-hop traversal on the
object side, scanning `association/by_obj` with prefix key
`[object_id, predicate?, subject_type?]`. -/
def find_subjects (assocs : List Assoc) (subject_type predicate obj : String) :
    Except PyErr (List String × List Assoc) :=
  if obj = "" then .error (.badRequest "Must provide object")
  else if subject_type ≠ "" ∧ predicate = "" then
    .error (.badRequest "Cannot provide subject type without a predicate")
  else
    let key := [KElem.str obj] ++
      (if predicate ≠ "" then
        [KElem.str predicate] ++
        (if subject_type ≠ "" then [KElem.str subject_type] else [])
       else [])
    let sub_assocs := (prefixScan key (byObjRows assocs)).map (·.val)
    .ok (sub_assocs.map (·.s), sub_assocs)

/-- The association list of a traversal result (empty on error). -/
def assocsOf (r : Except PyErr (List String × List Assoc)) : List Assoc :=
  match r with
  | .ok (_, l) => l
  | .error _ => []

/-- `create_association(subject, predicate, obj)` with both endpoints given
as resolved references (the bare-id path reads the document first and then
behaves identically). Validates that all elements are set and both
endpoints are persisted, resolves the predicate (else
`BadRequest: Predicate unknown`), checks both endpoint types (else
`BadRequest: Illegal subject/object type`), rejects an existing non-retired
triple found through `find_associations` (else `BadRequest: already
exists`), and finally persists a new non-retired association with the given
fresh id and timestamp. -/
def create_association (env : TypeEnv) (assocs : List Assoc) (subject : IonRef)
    (predicate : String) (obj : IonRef) (new_id : String) (ts : Nat) :
    Except PyErr (Assoc × List Assoc) :=
  if predicate = "" then
    .error (.badRequest "Association must have all elements set")
  else if subject.rid = "" then
    .error (.badRequest "Subject id or rev not available")
  else if obj.rid = "" then
    .error (.badRequest "Object id or rev not available")
  else
    match env.preds predicate with
    | none => .error (.badRequest "Predicate unknown")
    | some pt =>
      if predTypeOk env subject.rtype pt.domain = false then
        .error (.badRequest "Illegal subject type for predicate")
      else if predTypeOk env obj.rtype pt.range = false then
        .error (.badRequest "Illegal object type for predicate")
      else
        match find_associations assocs subject.rid predicate obj.rid .noArg with
        | .error e => .error e
        | .ok assoc_list =>
          if assoc_list ≠ [] then
            .error (.badRequest "Association between subject and object with predicate already exists")
          else
            let na : Assoc :=
              ⟨new_id, subject.rid, subject.rtype, predicate, obj.rid, obj.rtype, ts, false⟩
            .ok (na, assocs ++ [na])

/-- One Association Manager operation: create an edge, delete an edge by
document id (`delete_association` with an id), or delete all edges matching
a triple (`delete_association` with a 3-list). -/
inductive AMOp where
  | create (subject : IonRef) (predicate : String) (obj : IonRef) (new_id : String) (ts : Nat)
  | deleteById (aid : String)
  | deleteTriple (s p o : String)
deriving Repr

/-- Effect of one Association Manager operation on the association store;
failed operations leave the store unchanged. -/
def amStep (env : TypeEnv) (assocs : List Assoc) : AMOp → List Assoc
  | .create subject predicate obj new_id ts =>
    match create_association env assocs subject predicate obj new_id ts with
    | .ok (_, assocs') => assocs'
    | .error _ => assocs
  | .deleteById aid => assocs.filter fun a => a.rid ≠ aid
  | .deleteTriple s p o =>
    match find_associations assocs s p o .noArg with
    | .ok found => assocs.filter fun a => ((found.map (·.rid)).contains a.rid) = false
    | .error _ => assocs

/-- The association store after a sequence of Association Manager
operations starting from the empty store. -/
def amRun (env : TypeEnv) (ops : List AMOp) : List Assoc :=
  ops.foldl (amStep env) []

/-- At most one non-retired association per `(subject, predicate, object)`
triple. -/
def dupFree (assocs : List Assoc) : Prop :=
  ∀ s p o,
    (assocs.filter fun a =>
      !a.retired && (decide (a.s = s) && (decide (a.p = p) && decide (a.o = o)))).length ≤ 1

/-- A datastore holding plain documents (by id) and association documents. -/
structure DSState where
  docs : List String
  assocs : List Assoc
deriving DecidableEq, Repr

/-- `delete_doc(doc_id, del_associations)`: with cascade, first finds every
association referencing the document on either side through the any-side
index and deletes them, then deletes the document; without cascade, a
remaining reference only produces a warning (returned as the Bool) and the
document deletion proceeds regardless. Revision checking is left to the
store and not modelled. -/
def delete_doc (st : DSState) (doc_id : String) (del_associations : Bool) :
    Except PyErr (DSState × Bool) :=
  if del_associations then
    match find_associations st.assocs "" "" "" (.one doc_id) with
    | .error e => .error e
    | .ok found =>
      let assoc_ids := found.map (·.rid)
      .ok (⟨st.docs.filter (· ≠ doc_id),
            st.assocs.filter fun a => (assoc_ids.contains a.rid) = false⟩, false)
  else
    match find_associations st.assocs "" "" "" (.one doc_id) with
    | .error e => .error e
    | .ok found =>
      .ok (⟨st.docs.filter (· ≠ doc_id), st.assocs⟩, !found.isEmpty)

/-- Which single-index query the dispatcher `find_resources_ext` hands the
call to (or `pyNone` for the unreachable fall-through returning `None`). -/
inductive QueryCall where
  | byName (name restype : String)
  | byKeyword (keyword restype : String)
  | byAltid (alt_id : String) (alt_id_ns : Option String)
  | byNestedType (nested_type restype : String)
  | byAttribute (restype attr_name attr_value : String)
  | byLcstate (lcstate restype : String)
  | byType (restype lcstate : String)
  | byTypeAll
  | pyNone
deriving DecidableEq, Repr

/-- The `find_resources_ext` dispatcher: the `if/elif` chain selecting
exactly one index query for the supplied qualifier arguments. String
arguments use `""` for absent; `alt_id_ns` distinguishes `None` from `""`
as the source does. -/
def find_resources_ext (restype lcstate name keyword nested_type attr_name
    attr_value alt_id : String) (alt_id_ns : Option String) :
    Except PyErr QueryCall :=
  if name ≠ "" then
    if lcstate ≠ "" then .error (.badRequest "find by name does not support lcstate")
    else .ok (.byName name restype)
  else if keyword ≠ "" then .ok (.byKeyword keyword restype)
  else if alt_id ≠ "" ∨ optTruthy alt_id_ns = true then
    .ok (.byAltid alt_id alt_id_ns)
  else if nested_type ≠ "" then .ok (.byNestedType nested_type restype)
  else if restype ≠ "" ∧ attr_name ≠ "" then .ok (.byAttribute restype attr_name attr_value)
  else if restype ≠ "" ∧ lcstate ≠ "" then .ok (.byLcstate lcstate restype)
  else if restype ≠ "" then .ok (.byType restype lcstate)
  else if lcstate ≠ "" then .ok (.byLcstate lcstate restype)
  else if restype = "" ∧ lcstate = "" ∧ name = "" then .ok .byTypeAll
  else .ok .pyNone

/-- Scalar (primitive) values inside raw store results. -/
inductive Scalar where
  | null
  | bool (b : Bool)
  | num (n : Int)
  | str (s : String)
deriving DecidableEq, Repr

/-- A raw store result as seen by `_parse_results`: a primitive, a list, a
mapping, a view row (`id?`/`key`/`value`/`doc?`), or a `ViewResults`
object. Accessing the rows of a `ViewResults` performs the store query;
`rows = none` models the store raising `ResourceNotFound` there (the named
index does not exist). -/
inductive RawVal where
  | scal (s : Scalar)
  | arr (xs : List RawVal)
  | dict (fields : List (String × RawVal))
  | row (rowId : Option String) (key : RawVal) (value : RawVal) (doc : Option RawVal)
  | results (rows : Option (List RawVal))
deriving Repr

/-- A parsed domain value: primitives and structures pass through, and a
document-shaped mapping becomes a typed domain object (`ion`) through the
external deserializer. -/
inductive PyVal where
  | scal (s : Scalar)
  | arr (xs : List PyVal)
  | dict (fields : List (String × PyVal))
  | ion (tag : String)
deriving Repr

mutual

/-- `_parse_results`: recursively projects a raw store result to domain
values. `deser` is the external `IonObjectDeserializer` applied to
document-shaped mappings (those carrying `_id`); it may itself fail, e.g.
with `NotFound` for a resource deleted mid-scan, and such failures
propagate. A `ViewResults` whose rows the store cannot produce surfaces as
`BadRequest`. -/
def parseResults (deser : List (String × RawVal) → Except PyErr PyVal) :
    RawVal → Except PyErr PyVal
  | .results none => .error (.badRequest "The desired resource does not exist.")
  | .results (some rows) => do
      let vs ← parseResultsList deser rows
      pure (.arr vs)
  | .row rowId key value doc => do
      let k ← parseResults deser key
      let v ← parseResults deser value
      let idFields := match rowId with
        | some i => [("id", PyVal.scal (.str i))]
        | none => []
      match doc with
      | some d => do
          let dv ← parseResults deser d
          pure (.dict (idFields ++ [("key", k), ("value", v), ("doc", dv)]))
      | none => pure (.dict (idFields ++ [("key", k), ("value", v)]))
  | .arr xs => do
      let vs ← parseResultsList deser xs
      pure (.arr vs)
  | .dict fields =>
      if fields.any (fun f => f.1 = "_id") then deser fields
      else do
        let fs ← parseResultsFields deser fields
        pure (.dict fs)
  | .scal s => pure (.scal s)

/-- Elementwise projection of a list of raw results. -/
def parseResultsList (deser : List (String × RawVal) → Except PyErr PyVal) :
    List RawVal → Except PyErr (List PyVal)
  | [] => pure []
  | x :: xs => do
      let v ← parseResults deser x
      let vs ← parseResultsList deser xs
      pure (v :: vs)

/-- Valuewise projection of a mapping that is not document-shaped. -/
def parseResultsFields (deser : List (String × RawVal) → Except PyErr PyVal) :
    List (String × RawVal) → Except PyErr (List (String × PyVal))
  | [] => pure []
  | (k, x) :: xs => do
      let v ← parseResults deser x
      let vs ← parseResultsFields deser xs
      pure ((k, v) :: vs)

end

/-- The `(type, name)` ordering of `find_res_by_type` results. -/
def resTypeNameLE (x y : ResAssocT) : Prop :=
  if x.rtype = y.rtype then strLE x.rname y.rname = true
  else strLE x.rtype y.rtype = true

/-- The association list of a `find_associations` result (empty on error). -/
def exceptListOf (r : Except PyErr (List Assoc)) : List Assoc :=
  match r with
  | .ok l => l
  | .error _ => []

/-! ## Collation order: basic properties -/

theorem charLE_total (a b : Char) : charLE a b = true ∨ charLE b a = true := by
  simp only [charLE, decide_eq_true_eq]
  omega

theorem charLE_trans {a b c : Char} (h1 : charLE a b = true) (h2 : charLE b c = true) :
    charLE a c = true := by
  simp only [charLE, decide_eq_true_eq] at *
  omega

theorem charLE_antisymm {a b : Char} (h1 : charLE a b = true) (h2 : charLE b a = true) :
    a = b := by
  have h : a.toNat = b.toNat := by
    simp only [charLE, decide_eq_true_eq] at h1 h2
    omega
  have ha := Char.ofNat_toNat a
  have hb := Char.ofNat_toNat b
  rw [← ha, ← hb, h]

theorem lexCharLE_refl (a : List Char) : lexCharLE a a = true := by
  induction a with
  | nil => rfl
  | cons x xs ih => simp [lexCharLE, ih]

theorem lexCharLE_total (a b : List Char) : lexCharLE a b = true ∨ lexCharLE b a = true := by
  induction a generalizing b with
  | nil => left; rfl
  | cons x xs ih =>
    cases b with
    | nil => right; rfl
    | cons y ys =>
      by_cases hxy : x = y
      · subst hxy
        simpa [lexCharLE] using ih ys
      · simp only [lexCharLE, if_neg hxy, if_neg (Ne.symm hxy)]
        exact charLE_total x y

theorem lexCharLE_trans {a b c : List Char} (h1 : lexCharLE a b = true)
    (h2 : lexCharLE b c = true) : lexCharLE a c = true := by
  induction a generalizing b c with
  | nil => rfl
  | cons x xs ih =>
    cases b with
    | nil => simp [lexCharLE] at h1
    | cons y ys =>
      cases c with
      | nil => simp [lexCharLE] at h2
      | cons z zs =>
        by_cases hxy : x = y
        · subst hxy
          by_cases hyz : x = z
          · subst hyz
            simp only [lexCharLE, if_pos rfl] at *
            exact ih h1 h2
          · simp only [lexCharLE, if_pos rfl] at h1
            simpa only [lexCharLE, if_neg hyz] using h2
        · by_cases hyz : y = z
          · subst hyz
            simpa only [lexCharLE, if_neg hxy] using h1
          · simp only [lexCharLE, if_neg hxy] at h1
            simp only [lexCharLE, if_neg hyz] at h2
            by_cases hxz : x = z
            · subst hxz
              exact absurd (charLE_antisymm h1 h2) hxy
            · simp only [lexCharLE, if_neg hxz]
              exact charLE_trans h1 h2

theorem lexCharLE_antisymm {a b : List Char} (h1 : lexCharLE a b = true)
    (h2 : lexCharLE b a = true) : a = b := by
  induction a generalizing b with
  | nil =>
    cases b with
    | nil => rfl
    | cons y ys => simp [lexCharLE] at h2
  | cons x xs ih =>
    cases b with
    | nil => simp [lexCharLE] at h1
    | cons y ys =>
      by_cases hxy : x = y
      · subst hxy
        simp only [lexCharLE, if_pos rfl] at h1 h2
        rw [ih h1 h2]
      · simp only [lexCharLE, if_neg hxy, if_neg (Ne.symm hxy)] at h1 h2
        exact absurd (charLE_antisymm h1 h2) hxy

theorem strLE_refl (a : String) : strLE a a = true := lexCharLE_refl a.data

theorem strLE_total (a b : String) : strLE a b = true ∨ strLE b a = true :=
  lexCharLE_total a.data b.data

theorem strLE_trans {a b c : String} (h1 : strLE a b = true) (h2 : strLE b c = true) :
    strLE a c = true := lexCharLE_trans h1 h2

theorem strLE_antisymm {a b : String} (h1 : strLE a b = true) (h2 : strLE b a = true) :
    a = b := by
  have h : a.data = b.data := lexCharLE_antisymm h1 h2
  cases a; cases b
  exact congrArg String.mk h

theorem kelemLE_total (a b : KElem) : kelemLE a b = true ∨ kelemLE b a = true := by
  cases a <;> cases b <;> simp [kelemLE]
  · omega
  · exact strLE_total _ _

theorem kelemLE_trans {a b c : KElem} (h1 : kelemLE a b = true) (h2 : kelemLE b c = true) :
    kelemLE a c = true := by
  cases a <;> cases b <;> cases c <;> simp_all [kelemLE]
  · omega
  · exact strLE_trans h1 h2

theorem kelemLE_antisymm {a b : KElem} (h1 : kelemLE a b = true) (h2 : kelemLE b a = true) :
    a = b := by
  cases a <;> cases b <;> simp_all [kelemLE]
  · omega
  · exact strLE_antisymm h1 h2

theorem keyLE_refl (a : Key) : keyLE a a = true := by
  induction a with
  | nil => rfl
  | cons x xs ih => simp [keyLE, ih]

theorem keyLE_total (a b : Key) : keyLE a b = true ∨ keyLE b a = true := by
  induction a generalizing b with
  | nil => left; rfl
  | cons x xs ih =>
    cases b with
    | nil => right; rfl
    | cons y ys =>
      by_cases hxy : x = y
      · subst hxy
        simpa [keyLE] using ih ys
      · simp only [keyLE, if_neg hxy, if_neg (Ne.symm hxy)]
        exact kelemLE_total x y

theorem keyLE_trans {a b c : Key} (h1 : keyLE a b = true) (h2 : keyLE b c = true) :
    keyLE a c = true := by
  induction a generalizing b c with
  | nil => rfl
  | cons x xs ih =>
    cases b with
    | nil => simp [keyLE] at h1
    | cons y ys =>
      cases c with
      | nil => simp [keyLE] at h2
      | cons z zs =>
        by_cases hxy : x = y
        · subst hxy
          by_cases hyz : x = z
          · subst hyz
            simp only [keyLE, if_pos rfl] at *
            exact ih h1 h2
          · simp only [keyLE, if_pos rfl] at h1
            simpa only [keyLE, if_neg hyz] using h2
        · by_cases hyz : y = z
          · subst hyz
            simpa only [keyLE, if_neg hxy] using h1
          · simp only [keyLE, if_neg hxy] at h1
            simp only [keyLE, if_neg hyz] at h2
            by_cases hxz : x = z
            · subst hxz
              exact absurd (kelemLE_antisymm h1 h2) hxy
            · simp only [keyLE, if_neg hxz]
              exact kelemLE_trans h1 h2

/-! ## The prefix range scan -/

theorem keyLE_single_emax (k : Key) (hk : KElem.emax ∉ k) :
    keyLE k [KElem.emax] = true := by
  cases k with
  | nil => rfl
  | cons c cs =>
    have hc : c ≠ KElem.emax := fun h => hk (h ▸ List.mem_cons_self c cs)
    simp only [keyLE, if_neg hc]
    cases c <;> simp [kelemLE] at hc ⊢

theorem keyLE_range_iff (p k : Key) (hk : KElem.emax ∉ k) :
    (keyLE p k = true ∧ keyLE k (p ++ [KElem.emax]) = true) ↔ p <+: k := by
  induction p generalizing k with
  | nil =>
    simp only [List.nil_append, List.nil_prefix, iff_true]
    exact ⟨rfl, keyLE_single_emax k hk⟩
  | cons a as ih =>
    cases k with
    | nil =>
      simp only [keyLE, List.prefix_nil]
      simp
    | cons b bs =>
      have hb : b ≠ KElem.emax := fun h => hk (h ▸ List.mem_cons_self b bs)
      have hbs : KElem.emax ∉ bs := fun h => hk (List.mem_cons_of_mem b h)
      by_cases hab : a = b
      · subst hab
        simp only [List.cons_append, keyLE, if_pos rfl, List.cons_prefix_cons, true_and]
        exact ih bs hbs
      · simp only [List.cons_append, keyLE, if_neg hab, if_neg (Ne.symm hab),
          List.cons_prefix_cons]
        constructor
        · rintro ⟨h1, h2⟩
          exact absurd (kelemLE_antisymm h1 h2) hab
        · rintro ⟨h, -⟩
          exact absurd h hab

theorem mem_prefixScan {α : Type} (key : Key) (rows : List (VRow α)) (row : VRow α)
    (hk : KElem.emax ∉ row.key) :
    row ∈ prefixScan key rows ↔ row ∈ rows ∧ key <+: row.key := by
  simp only [prefixScan, rangeScan, getEndkey, List.mem_filter, Bool.and_eq_true]
  rw [keyLE_range_iff key row.key hk]

theorem mem_sortRows {α : Type} (rows : List (VRow α)) (row : VRow α) :
    row ∈ sortRows rows ↔ row ∈ rows :=
  List.mem_insertionSort _

theorem sortRows_sorted {α : Type} (rows : List (VRow α)) :
    (sortRows rows).Pairwise (fun a b => keyLE a.key b.key = true) := by
  haveI : IsTotal (VRow α) (fun a b => keyLE a.key b.key = true) :=
    ⟨fun a b => keyLE_total a.key b.key⟩
  haveI : IsTrans (VRow α) (fun a b => keyLE a.key b.key = true) :=
    ⟨fun _ _ _ h1 h2 => keyLE_trans h1 h2⟩
  exact List.sorted_insertionSort _ rows

/-! ## View row membership -/

theorem mem_ite_nil {α : Type} (P : Prop) [Decidable P] (x : α) (l : List α) :
    (x ∈ if P then l else []) ↔ P ∧ x ∈ l := by
  split <;> simp_all

theorem mem_bySubRows (assocs : List Assoc) (row : VRow Assoc) :
    row ∈ bySubRows assocs ↔ ∃ a, a ∈ assocs ∧ a.retired = false ∧
      row = ⟨a.rid, [KElem.str a.s, KElem.str a.p, KElem.str a.ot, KElem.str a.o], a⟩ := by
  simp only [bySubRows, mem_sortRows, List.mem_flatMap, bySubEmit, mem_ite_nil,
    List.mem_singleton]

theorem mem_byObjRows (assocs : List Assoc) (row : VRow Assoc) :
    row ∈ byObjRows assocs ↔ ∃ a, a ∈ assocs ∧ a.retired = false ∧
      row = ⟨a.rid, [KElem.str a.o, KElem.str a.p, KElem.str a.st, KElem.str a.s], a⟩ := by
  simp only [byObjRows, mem_sortRows, List.mem_flatMap, byObjEmit, mem_ite_nil,
    List.mem_singleton]

theorem mem_byMatchRows (assocs : List Assoc) (row : VRow Assoc) :
    row ∈ byMatchRows assocs ↔ ∃ a, a ∈ assocs ∧ a.retired = false ∧
      row = ⟨a.rid, [KElem.str a.s, KElem.str a.o, KElem.str a.p], a⟩ := by
  simp only [byMatchRows, mem_sortRows, List.mem_flatMap, byMatchEmit, mem_ite_nil,
    List.mem_singleton]

theorem mem_byIdRows (assocs : List Assoc) (row : VRow Assoc) :
    row ∈ byIdRows assocs ↔ ∃ a, a ∈ assocs ∧ a.retired = false ∧
      (row = ⟨a.rid, [KElem.str a.s], a⟩ ∨ row = ⟨a.rid, [KElem.str a.o], a⟩) := by
  simp only [byIdRows, mem_sortRows, List.mem_flatMap, byIdEmit, mem_ite_nil,
    List.mem_cons, List.mem_singleton, List.not_mem_nil, or_false]

theorem mem_byTypeRows (store : List Resource) (row : VRow Unit) :
    row ∈ byTypeRows store ↔ ∃ r, r ∈ store ∧ r.type_ ≠ "" ∧ r.lcstate ≠ "RETIRED" ∧
      row = ⟨r.rid, [KElem.str r.type_, KElem.str (strTake r.name 200)], ()⟩ := by
  simp only [byTypeRows, mem_sortRows, List.mem_flatMap, byTypeEmit, mem_ite_nil,
    List.mem_singleton]
  constructor
  · rintro ⟨r, hr, ⟨ht, hl⟩, hrow⟩
    exact ⟨r, hr, ht, hl, hrow⟩
  · rintro ⟨r, hr, ht, hl, hrow⟩
    exact ⟨r, hr, ⟨ht, hl⟩, hrow⟩

theorem mem_byAltidRows (store : List Resource) (row : VRow Unit) :
    row ∈ byAltidRows store ↔ ∃ r, r ∈ store ∧
      ((r.type_ ≠ "" ∧ r.alt_ids ≠ [] ∧ r.lcstate ≠ "RETIRED") ∧
        (∃ a, a ∈ r.alt_ids ∧ row = ⟨r.rid, altIdKey a, ()⟩) ∨
       ¬(r.type_ ≠ "" ∧ r.alt_ids ≠ [] ∧ r.lcstate ≠ "RETIRED") ∧
        (r.type_ ≠ "" ∧ r.uirefid ≠ "" ∧ r.lcstate ≠ "RETIRED") ∧
        row = ⟨r.rid, [KElem.str r.uirefid, KElem.str "UIREFID"], ()⟩) := by
  simp only [byAltidRows, mem_sortRows, List.mem_flatMap, byAltidEmit]
  constructor
  · rintro ⟨r, hr, hrow⟩
    refine ⟨r, hr, ?_⟩
    by_cases h1 : r.type_ ≠ "" ∧ r.alt_ids ≠ [] ∧ r.lcstate ≠ "RETIRED"
    · rw [if_pos h1] at hrow
      simp only [List.mem_map] at hrow
      obtain ⟨a, ha, hrow⟩ := hrow
      exact Or.inl ⟨h1, a, ha, hrow.symm⟩
    · rw [if_neg h1] at hrow
      by_cases h2 : r.type_ ≠ "" ∧ r.uirefid ≠ "" ∧ r.lcstate ≠ "RETIRED"
      · rw [if_pos h2] at hrow
        simp only [List.mem_singleton] at hrow
        exact Or.inr ⟨h1, h2, hrow⟩
      · rw [if_neg h2] at hrow
        simp at hrow
  · rintro ⟨r, hr, ⟨h1, a, ha, hrow⟩ | ⟨h1, h2, hrow⟩⟩
    · refine ⟨r, hr, ?_⟩
      rw [if_pos h1]
      simp only [List.mem_map]
      exact ⟨a, ha, hrow.symm⟩
    · refine ⟨r, hr, ?_⟩
      rw [if_neg h1, if_pos h2]
      simp [hrow]

theorem bySubRows_noEmax {assocs : List Assoc} {row : VRow Assoc}
    (h : row ∈ bySubRows assocs) : KElem.emax ∉ row.key := by
  obtain ⟨a, -, -, rfl⟩ := (mem_bySubRows assocs row).mp h
  simp

theorem byObjRows_noEmax {assocs : List Assoc} {row : VRow Assoc}
    (h : row ∈ byObjRows assocs) : KElem.emax ∉ row.key := by
  obtain ⟨a, -, -, rfl⟩ := (mem_byObjRows assocs row).mp h
  simp

theorem byMatchRows_noEmax {assocs : List Assoc} {row : VRow Assoc}
    (h : row ∈ byMatchRows assocs) : KElem.emax ∉ row.key := by
  obtain ⟨a, -, -, rfl⟩ := (mem_byMatchRows assocs row).mp h
  simp

theorem byTypeRows_noEmax {store : List Resource} {row : VRow Unit}
    (h : row ∈ byTypeRows store) : KElem.emax ∉ row.key := by
  obtain ⟨r, -, -, -, rfl⟩ := (mem_byTypeRows store row).mp h
  simp

theorem byAltidRows_noEmax {store : List Resource} {row : VRow Unit}
    (h : row ∈ byAltidRows store) : KElem.emax ∉ row.key := by
  obtain ⟨r, -, ⟨-, a, -, rfl⟩ | ⟨-, -, rfl⟩⟩ := (mem_byAltidRows store row).mp h
  · by_cases hl : (splitStr a ':').length = 2 <;> simp [altIdKey, hl]
  · simp

theorem mem_prefixScan_all {α : Type} (key : Key) (rows : List (VRow α))
    (h : ∀ r ∈ rows, KElem.emax ∉ r.key) (row : VRow α) :
    row ∈ prefixScan key rows ↔ row ∈ rows ∧ key <+: row.key := by
  constructor
  · intro hm
    have hr : row ∈ rows := by
      simp only [prefixScan, rangeScan, List.mem_filter] at hm
      exact hm.1
    exact (mem_prefixScan key rows row (h row hr)).mp hm
  · rintro ⟨hr, hp⟩
    exact (mem_prefixScan key rows row (h row hr)).mpr ⟨hr, hp⟩

/-! ## One-hop traversal: characterization of the returned edge sets -/

theorem find_objects_mem_s (assocs : List Assoc) (s : String) (hs : s ≠ "") (a : Assoc) :
    a ∈ assocsOf (find_objects assocs s "" "") ↔
      a ∈ assocs ∧ a.retired = false ∧ a.s = s := by
  have hguard : ¬(("" : String) ≠ "" ∧ ("" : String) = "") := by simp
  simp only [find_objects, if_neg (by simpa using hs), if_neg hguard]
  simp only [ne_eq, not_true_eq_false, false_and, if_false, List.append_nil, assocsOf]
  constructor
  · intro h
    obtain ⟨row, hrow, hval⟩ := List.mem_map.mp h
    obtain ⟨hrmem, hpre⟩ :=
      (mem_prefixScan_all _ _ (fun r hr => bySubRows_noEmax hr) row).mp hrow
    obtain ⟨b, hb, hbret, rfl⟩ := (mem_bySubRows assocs row).mp hrmem
    simp only [List.cons_prefix_cons, KElem.str.injEq] at hpre
    cases hval
    exact ⟨hb, hbret, hpre.1.symm⟩
  · rintro ⟨ha, hret, hsa⟩
    refine List.mem_map.mpr
      ⟨⟨a.rid, [KElem.str a.s, KElem.str a.p, KElem.str a.ot, KElem.str a.o], a⟩, ?_, rfl⟩
    refine (mem_prefixScan_all _ _ (fun r hr => bySubRows_noEmax hr) _).mpr
      ⟨(mem_bySubRows assocs _).mpr ⟨a, ha, hret, rfl⟩, ?_⟩
    simp [List.cons_prefix_cons, hsa]

theorem find_objects_mem_sp (assocs : List Assoc) (s p : String) (hs : s ≠ "")
    (hp : p ≠ "") (a : Assoc) :
    a ∈ assocsOf (find_objects assocs s p "") ↔
      a ∈ assocs ∧ a.retired = false ∧ a.s = s ∧ a.p = p := by
  have hguard : ¬(("" : String) ≠ "" ∧ p = "") := by simp
  simp only [find_objects, if_neg (by simpa using hs), if_neg hguard]
  simp only [ne_eq, not_true_eq_false, if_neg (by simpa using hp), assocsOf]
  simp only [if_pos hp, not_true_eq_false, if_false, List.append_nil]
  constructor
  · intro h
    obtain ⟨row, hrow, hval⟩ := List.mem_map.mp h
    obtain ⟨hrmem, hpre⟩ :=
      (mem_prefixScan_all _ _ (fun r hr => bySubRows_noEmax hr) row).mp hrow
    obtain ⟨b, hb, hbret, rfl⟩ := (mem_bySubRows assocs row).mp hrmem
    simp only [List.cons_append, List.nil_append, List.cons_prefix_cons,
      KElem.str.injEq] at hpre
    cases hval
    exact ⟨hb, hbret, hpre.1.symm, hpre.2.1.symm⟩
  · rintro ⟨ha, hret, hsa, hpa⟩
    refine List.mem_map.mpr
      ⟨⟨a.rid, [KElem.str a.s, KElem.str a.p, KElem.str a.ot, KElem.str a.o], a⟩, ?_, rfl⟩
    refine (mem_prefixScan_all _ _ (fun r hr => bySubRows_noEmax hr) _).mpr
      ⟨(mem_bySubRows assocs _).mpr ⟨a, ha, hret, rfl⟩, ?_⟩
    simp [List.cons_prefix_cons, hsa, hpa]

theorem find_objects_mem_spo (assocs : List Assoc) (s p ot : String) (hs : s ≠ "")
    (hp : p ≠ "") (hot : ot ≠ "") (a : Assoc) :
    a ∈ assocsOf (find_objects assocs s p ot) ↔
      a ∈ assocs ∧ a.retired = false ∧ a.s = s ∧ a.p = p ∧ a.ot = ot := by
  have hguard : ¬(ot ≠ "" ∧ p = "") := fun h => hp h.2
  simp only [find_objects, if_neg (by simpa using hs), if_neg hguard]
  simp only [if_pos hp, if_pos hot, assocsOf]
  constructor
  · intro h
    obtain ⟨row, hrow, hval⟩ := List.mem_map.mp h
    obtain ⟨hrmem, hpre⟩ :=
      (mem_prefixScan_all _ _ (fun r hr => bySubRows_noEmax hr) row).mp hrow
    obtain ⟨b, hb, hbret, rfl⟩ := (mem_bySubRows assocs row).mp hrmem
    simp only [List.cons_append, List.nil_append, List.cons_prefix_cons,
      KElem.str.injEq] at hpre
    cases hval
    exact ⟨hb, hbret, hpre.1.symm, hpre.2.1.symm, hpre.2.2.1.symm⟩
  · rintro ⟨ha, hret, hsa, hpa, hota⟩
    refine List.mem_map.mpr
      ⟨⟨a.rid, [KElem.str a.s, KElem.str a.p, KElem.str a.ot, KElem.str a.o], a⟩, ?_, rfl⟩
    refine (mem_prefixScan_all _ _ (fun r hr => bySubRows_noEmax hr) _).mpr
      ⟨(mem_bySubRows assocs _).mpr ⟨a, ha, hret, rfl⟩, ?_⟩
    simp [List.cons_prefix_cons, hsa, hpa, hota]

theorem find_subjects_mem_o (assocs : List Assoc) (o : String) (ho : o ≠ "") (a : Assoc) :
    a ∈ assocsOf (find_subjects assocs "" "" o) ↔
      a ∈ assocs ∧ a.retired = false ∧ a.o = o := by
  have hguard : ¬(("" : String) ≠ "" ∧ ("" : String) = "") := by simp
  simp only [find_subjects, if_neg (by simpa using ho), if_neg hguard]
  simp only [ne_eq, not_true_eq_false, false_and, if_false, List.append_nil, assocsOf]
  constructor
  · intro h
    obtain ⟨row, hrow, hval⟩ := List.mem_map.mp h
    obtain ⟨hrmem, hpre⟩ :=
      (mem_prefixScan_all _ _ (fun r hr => byObjRows_noEmax hr) row).mp hrow
    obtain ⟨b, hb, hbret, rfl⟩ := (mem_byObjRows assocs row).mp hrmem
    simp only [List.cons_prefix_cons, KElem.str.injEq] at hpre
    cases hval
    exact ⟨hb, hbret, hpre.1.symm⟩
  · rintro ⟨ha, hret, hoa⟩
    refine List.mem_map.mpr
      ⟨⟨a.rid, [KElem.str a.o, KElem.str a.p, KElem.str a.st, KElem.str a.s], a⟩, ?_, rfl⟩
    refine (mem_prefixScan_all _ _ (fun r hr => byObjRows_noEmax hr) _).mpr
      ⟨(mem_byObjRows assocs _).mpr ⟨a, ha, hret, rfl⟩, ?_⟩
    simp [List.cons_prefix_cons, hoa]

theorem find_subjects_mem_op (assocs : List Assoc) (o p : String) (ho : o ≠ "")
    (hp : p ≠ "") (a : Assoc) :
    a ∈ assocsOf (find_subjects assocs "" p o) ↔
      a ∈ assocs ∧ a.retired = false ∧ a.o = o ∧ a.p = p := by
  have hguard : ¬(("" : String) ≠ "" ∧ p = "") := by simp
  simp only [find_subjects, if_neg (by simpa using ho), if_neg hguard]
  simp only [ne_eq, not_true_eq_false, if_neg (by simpa using hp), assocsOf]
  simp only [if_pos hp, not_true_eq_false, if_false, List.append_nil]
  constructor
  · intro h
    obtain ⟨row, hrow, hval⟩ := List.mem_map.mp h
    obtain ⟨hrmem, hpre⟩ :=
      (mem_prefixScan_all _ _ (fun r hr => byObjRows_noEmax hr) row).mp hrow
    obtain ⟨b, hb, hbret, rfl⟩ := (mem_byObjRows assocs row).mp hrmem
    simp only [List.cons_append, List.nil_append, List.cons_prefix_cons,
      KElem.str.injEq] at hpre
    cases hval
    exact ⟨hb, hbret, hpre.1.symm, hpre.2.1.symm⟩
  · rintro ⟨ha, hret, hoa, hpa⟩
    refine List.mem_map.mpr
      ⟨⟨a.rid, [KElem.str a.o, KElem.str a.p, KElem.str a.st, KElem.str a.s], a⟩, ?_, rfl⟩
    refine (mem_prefixScan_all _ _ (fun r hr => byObjRows_noEmax hr) _).mpr
      ⟨(mem_byObjRows assocs _).mpr ⟨a, ha, hret, rfl⟩, ?_⟩
    simp [List.cons_prefix_cons, hoa, hpa]

theorem find_subjects_mem_opt (assocs : List Assoc) (o p st : String) (ho : o ≠ "")
    (hp : p ≠ "") (hst : st ≠ "") (a : Assoc) :
    a ∈ assocsOf (find_subjects assocs st p o) ↔
      a ∈ assocs ∧ a.retired = false ∧ a.o = o ∧ a.p = p ∧ a.st = st := by
  have hguard : ¬(st ≠ "" ∧ p = "") := fun h => hp h.2
  simp only [find_subjects, if_neg (by simpa using ho), if_neg hguard]
  simp only [if_pos hp, if_pos hst, assocsOf]
  constructor
  · intro h
    obtain ⟨row, hrow, hval⟩ := List.mem_map.mp h
    obtain ⟨hrmem, hpre⟩ :=
      (mem_prefixScan_all _ _ (fun r hr => byObjRows_noEmax hr) row).mp hrow
    obtain ⟨b, hb, hbret, rfl⟩ := (mem_byObjRows assocs row).mp hrmem
    simp only [List.cons_append, List.nil_append, List.cons_prefix_cons,
      KElem.str.injEq] at hpre
    cases hval
    exact ⟨hb, hbret, hpre.1.symm, hpre.2.1.symm, hpre.2.2.1.symm⟩
  · rintro ⟨ha, hret, hoa, hpa, hsta⟩
    refine List.mem_map.mpr
      ⟨⟨a.rid, [KElem.str a.o, KElem.str a.p, KElem.str a.st, KElem.str a.s], a⟩, ?_, rfl⟩
    refine (mem_prefixScan_all _ _ (fun r hr => byObjRows_noEmax hr) _).mpr
      ⟨(mem_byObjRows assocs _).mpr ⟨a, ha, hret, rfl⟩, ?_⟩
    simp [List.cons_prefix_cons, hoa, hpa, hsta]

/-- C4: one-hop traversal narrows monotonically: for a fixed store and seed
subject `s`, the edge set of `find_objects(s, p)` is contained in that of
`find_objects(s)`, and `find_objects(s, p, ot)` in `find_objects(s, p)`;
supplying only `s` returns exactly the non-retired edges with subject `s`.
Dually for `find_subjects` on the object side. -/
theorem claim_C4 (assocs : List Assoc) (s p ot o st : String) (hs : s ≠ "")
    (hp : p ≠ "") (hot : ot ≠ "") (ho : o ≠ "") (hst : st ≠ "") :
    (∀ a, a ∈ assocsOf (find_objects assocs s p "") →
      a ∈ assocsOf (find_objects assocs s "" "")) ∧
    (∀ a, a ∈ assocsOf (find_objects assocs s p ot) →
      a ∈ assocsOf (find_objects assocs s p "")) ∧
    (∀ a, a ∈ assocsOf (find_objects assocs s "" "") ↔
      a ∈ assocs ∧ a.retired = false ∧ a.s = s) ∧
    (∀ a, a ∈ assocsOf (find_subjects assocs "" p o) →
      a ∈ assocsOf (find_subjects assocs "" "" o)) ∧
    (∀ a, a ∈ assocsOf (find_subjects assocs st p o) →
      a ∈ assocsOf (find_subjects assocs "" p o)) ∧
    (∀ a, a ∈ assocsOf (find_subjects assocs "" "" o) ↔
      a ∈ assocs ∧ a.retired = false ∧ a.o = o) := by
  refine ⟨?_, ?_, ?_, ?_, ?_, ?_⟩
  · intro a h
    obtain ⟨h1, h2, h3, -⟩ := (find_objects_mem_sp assocs s p hs hp a).mp h
    exact (find_objects_mem_s assocs s hs a).mpr ⟨h1, h2, h3⟩
  · intro a h
    obtain ⟨h1, h2, h3, h4, -⟩ := (find_objects_mem_spo assocs s p ot hs hp hot a).mp h
    exact (find_objects_mem_sp assocs s p hs hp a).mpr ⟨h1, h2, h3, h4⟩
  · exact find_objects_mem_s assocs s hs
  · intro a h
    obtain ⟨h1, h2, h3, -⟩ := (find_subjects_mem_op assocs o p ho hp a).mp h
    exact (find_subjects_mem_o assocs o ho a).mpr ⟨h1, h2, h3⟩
  · intro a h
    obtain ⟨h1, h2, h3, h4, -⟩ := (find_subjects_mem_opt assocs o p st ho hp hst a).mp h
    exact (find_subjects_mem_op assocs o p ho hp a).mpr ⟨h1, h2, h3, h4⟩
  · exact find_subjects_mem_o assocs o ho

/-- Witness for C4 at a concrete one-edge store. -/
theorem claim_C4_witness :
    (⟨"A1", "S1", "ST", "P", "O1", "OT", 0, false⟩ : Assoc) ∈
      assocsOf (find_objects [⟨"A1", "S1", "ST", "P", "O1", "OT", 0, false⟩] "S1" "" "") := by
  have h := claim_C4 [⟨"A1", "S1", "ST", "P", "O1", "OT", 0, false⟩]
    "S1" "P" "OT" "O1" "ST" (by decide) (by decide) (by decide) (by decide) (by decide)
  exact (h.2.2.1 _).mpr (by decide)

/-! ## Duplicate prevention in the Association Manager -/

theorem find_associations_match (assocs : List Assoc) (s p o : String) (hs : s ≠ "")
    (hp : p ≠ "") (ho : o ≠ "") :
    find_associations assocs s p o .noArg =
      .ok ((prefixScan [KElem.str s, KElem.str o, KElem.str p]
        (byMatchRows assocs)).map (·.val)) := by
  simp [find_associations, anyTruthy, hs, ho, hp]

theorem find_associations_match_mem (assocs : List Assoc) (s p o : String) (hs : s ≠ "")
    (hp : p ≠ "") (ho : o ≠ "") (a : Assoc) :
    a ∈ exceptListOf (find_associations assocs s p o .noArg) ↔
      a ∈ assocs ∧ a.retired = false ∧ a.s = s ∧ a.o = o ∧ a.p = p := by
  rw [find_associations_match assocs s p o hs hp ho]
  simp only [exceptListOf]
  constructor
  · intro h
    obtain ⟨row, hrow, hval⟩ := List.mem_map.mp h
    obtain ⟨hrmem, hpre⟩ :=
      (mem_prefixScan_all _ _ (fun r hr => byMatchRows_noEmax hr) row).mp hrow
    obtain ⟨b, hb, hbret, rfl⟩ := (mem_byMatchRows assocs row).mp hrmem
    simp only [List.cons_prefix_cons, KElem.str.injEq] at hpre
    cases hval
    exact ⟨hb, hbret, hpre.1.symm, hpre.2.1.symm, hpre.2.2.1.symm⟩
  · rintro ⟨ha, hret, hsa, hoa, hpa⟩
    refine List.mem_map.mpr
      ⟨⟨a.rid, [KElem.str a.s, KElem.str a.o, KElem.str a.p], a⟩, ?_, rfl⟩
    refine (mem_prefixScan_all _ _ (fun r hr => byMatchRows_noEmax hr) _).mpr
      ⟨(mem_byMatchRows assocs _).mpr ⟨a, ha, hret, rfl⟩, ?_⟩
    simp [List.cons_prefix_cons, hsa, hoa, hpa]

theorem create_association_dup (env : TypeEnv) (st : List Assoc) (subj : IonRef)
    (pred : String) (obj : IonRef) (nid : String) (ts : Nat) (pt : PredDef)
    (hp : pred ≠ "") (hsid : subj.rid ≠ "") (hoid : obj.rid ≠ "")
    (hpt : env.preds pred = some pt)
    (hdom : predTypeOk env subj.rtype pt.domain = true)
    (hran : predTypeOk env obj.rtype pt.range = true)
    (hdup : ∃ a ∈ st, a.retired = false ∧ a.s = subj.rid ∧ a.o = obj.rid ∧ a.p = pred) :
    create_association env st subj pred obj nid ts =
      .error (.badRequest
        "Association between subject and object with predicate already exists") := by
  obtain ⟨a, ha, hmatch⟩ := hdup
  have hmem : a ∈ exceptListOf (find_associations st subj.rid pred obj.rid .noArg) :=
    (find_associations_match_mem st subj.rid pred obj.rid hsid hp hoid a).mpr
      ⟨ha, hmatch⟩
  rw [find_associations_match st subj.rid pred obj.rid hsid hp hoid] at hmem
  simp only [exceptListOf] at hmem
  have hne := List.ne_nil_of_mem hmem
  simp [create_association, hp, hsid, hoid, hpt, hdom, hran,
    find_associations_match st subj.rid pred obj.rid hsid hp hoid, hne]

theorem create_association_nodup (env : TypeEnv) (st : List Assoc) (subj : IonRef)
    (pred : String) (obj : IonRef) (nid : String) (ts : Nat) (pt : PredDef)
    (hp : pred ≠ "") (hsid : subj.rid ≠ "") (hoid : obj.rid ≠ "")
    (hpt : env.preds pred = some pt)
    (hdom : predTypeOk env subj.rtype pt.domain = true)
    (hran : predTypeOk env obj.rtype pt.range = true)
    (hnodup : ¬ ∃ a ∈ st, a.retired = false ∧ a.s = subj.rid ∧ a.o = obj.rid ∧ a.p = pred) :
    create_association env st subj pred obj nid ts =
      .ok (⟨nid, subj.rid, subj.rtype, pred, obj.rid, obj.rtype, ts, false⟩,
           st ++ [⟨nid, subj.rid, subj.rtype, pred, obj.rid, obj.rtype, ts, false⟩]) := by
  have hnil : exceptListOf (find_associations st subj.rid pred obj.rid .noArg) = [] := by
    rw [List.eq_nil_iff_forall_not_mem]
    intro a hmem
    have := (find_associations_match_mem st subj.rid pred obj.rid hsid hp hoid a).mp hmem
    exact hnodup ⟨a, this.1, this.2⟩
  rw [find_associations_match st subj.rid pred obj.rid hsid hp hoid] at hnil
  simp only [exceptListOf] at hnil
  simp [create_association, hp, hsid, hoid, hpt, hdom, hran,
    find_associations_match st subj.rid pred obj.rid hsid hp hoid, hnil]

theorem create_association_ok_inv {env : TypeEnv} {st : List Assoc} {subj : IonRef}
    {pred : String} {obj : IonRef} {nid : String} {ts : Nat} {na : Assoc}
    {st' : List Assoc}
    (h : create_association env st subj pred obj nid ts = .ok (na, st')) :
    na = ⟨nid, subj.rid, subj.rtype, pred, obj.rid, obj.rtype, ts, false⟩ ∧
    st' = st ++ [na] ∧
    ∀ a ∈ st, ¬(a.retired = false ∧ a.s = subj.rid ∧ a.o = obj.rid ∧ a.p = pred) := by
  unfold create_association at h
  split at h
  · exact Except.noConfusion h
  rename_i hpred
  split at h
  · exact Except.noConfusion h
  rename_i hsid
  split at h
  · exact Except.noConfusion h
  rename_i hoid
  split at h
  · exact Except.noConfusion h
  rename_i pt hpt
  split at h
  · exact Except.noConfusion h
  split at h
  · exact Except.noConfusion h
  split at h
  · exact Except.noConfusion h
  rename_i assoc_list hfind
  split at h
  · exact Except.noConfusion h
  rename_i hnil
  simp only [Except.ok.injEq, Prod.mk.injEq] at h
  obtain ⟨hna, hst⟩ := h
  have hnil' : assoc_list = [] := not_not.mp (by simpa using hnil)
  refine ⟨hna.symm, ?_, ?_⟩
  · rw [← hst, hna]
  · intro a ha hm
    have hmem := (find_associations_match_mem st subj.rid pred obj.rid hsid hpred hoid
      a).mpr ⟨ha, hm⟩
    rw [hfind] at hmem
    simp only [exceptListOf, hnil'] at hmem
    exact absurd hmem (List.not_mem_nil a)

theorem dupFree_nil : dupFree [] := by
  intro s p o
  simp [dupFree]

theorem dupFree_filter (l : List Assoc) (q : Assoc → Bool) (h : dupFree l) :
    dupFree (l.filter q) := by
  intro s p o
  exact le_trans
    (List.Sublist.length_le (List.Sublist.filter _ (List.filter_sublist l)))
    (h s p o)

theorem dupFree_append_new (l : List Assoc) (na : Assoc) (h : dupFree l)
    (hnew : ∀ a ∈ l, ¬(a.retired = false ∧ a.s = na.s ∧ a.o = na.o ∧ a.p = na.p)) :
    dupFree (l ++ [na]) := by
  intro s p o
  rw [List.filter_append, List.length_append]
  by_cases hm :
      (!na.retired && (decide (na.s = s) && (decide (na.p = p) && decide (na.o = o)))) = true
  · have hl : (l.filter fun a =>
        !a.retired && (decide (a.s = s) && (decide (a.p = p) && decide (a.o = o)))) = [] := by
      rw [List.filter_eq_nil_iff]
      intro a ha hcond
      simp only [Bool.and_eq_true, Bool.not_eq_true', decide_eq_true_eq] at hcond hm
      exact hnew a ha
        ⟨hcond.1, by rw [hcond.2.1, ← hm.2.1], by rw [hcond.2.2.2, ← hm.2.2.2],
         by rw [hcond.2.2.1, ← hm.2.2.1]⟩
    rw [hl]
    simpa using List.length_filter_le _ [na]
  · have hr : ([na].filter fun a =>
        !a.retired && (decide (a.s = s) && (decide (a.p = p) && decide (a.o = o)))) = [] := by
      rw [List.filter_eq_nil_iff]
      intro a ha hcond
      simp only [List.mem_singleton] at ha
      subst ha
      exact hm hcond
    rw [hr]
    simpa using h s p o

theorem amStep_dupFree (env : TypeEnv) (st : List Assoc) (op : AMOp) (h : dupFree st) :
    dupFree (amStep env st op) := by
  cases op with
  | create subj pred obj nid ts =>
    simp only [amStep]
    cases hc : create_association env st subj pred obj nid ts with
    | error e => exact h
    | ok res =>
      obtain ⟨na, st'⟩ := res
      obtain ⟨hna, hst, hnodup⟩ := create_association_ok_inv hc
      rw [hst]
      refine dupFree_append_new st na h ?_
      intro a ha hm
      rw [hna] at hm
      exact hnodup a ha hm
  | deleteById aid => exact dupFree_filter _ _ h
  | deleteTriple s p o =>
    simp only [amStep]
    cases hf : find_associations st s p o .noArg with
    | ok found => exact dupFree_filter _ _ h
    | error e => exact h

theorem amRun_dupFree (env : TypeEnv) (ops : List AMOp) : dupFree (amRun env ops) := by
  suffices h : ∀ st, dupFree st → dupFree (ops.foldl (amStep env) st) from h [] dupFree_nil
  induction ops with
  | nil => intro st h; exact h
  | cons op ops ih =>
    intro st h
    exact ih _ (amStep_dupFree env st op h)

/-- C1: `create_association` fails with `BadRequest` when a non-retired
association with the same `(subject, predicate, object)` triple already
exists, and otherwise persists and returns a new association; called twice
sequentially with identical arguments it succeeds the first time and fails
the second time; and in every store reachable from empty by sequential
Association Manager operations, at most one non-retired association exists
per triple. -/
theorem claim_C1 (env : TypeEnv) (st : List Assoc) (subj : IonRef) (pred : String)
    (obj : IonRef) (nid nid2 : String) (ts ts2 : Nat) (pt : PredDef)
    (hp : pred ≠ "") (hsid : subj.rid ≠ "") (hoid : obj.rid ≠ "")
    (hpt : env.preds pred = some pt)
    (hdom : predTypeOk env subj.rtype pt.domain = true)
    (hran : predTypeOk env obj.rtype pt.range = true) :
    ((∃ a ∈ st, a.retired = false ∧ a.s = subj.rid ∧ a.o = obj.rid ∧ a.p = pred) →
      create_association env st subj pred obj nid ts =
        .error (.badRequest
          "Association between subject and object with predicate already exists")) ∧
    ((¬ ∃ a ∈ st, a.retired = false ∧ a.s = subj.rid ∧ a.o = obj.rid ∧ a.p = pred) →
      create_association env st subj pred obj nid ts =
        .ok (⟨nid, subj.rid, subj.rtype, pred, obj.rid, obj.rtype, ts, false⟩,
             st ++ [⟨nid, subj.rid, subj.rtype, pred, obj.rid, obj.rtype, ts, false⟩]) ∧
      create_association env
        (st ++ [⟨nid, subj.rid, subj.rtype, pred, obj.rid, obj.rtype, ts, false⟩])
        subj pred obj nid2 ts2 =
        .error (.badRequest
          "Association between subject and object with predicate already exists")) ∧
    (∀ ops, dupFree (amRun env ops)) := by
  refine ⟨?_, ?_, fun ops => amRun_dupFree env ops⟩
  · intro hdup
    exact create_association_dup env st subj pred obj nid ts pt
      hp hsid hoid hpt hdom hran hdup
  · intro hnodup
    refine ⟨create_association_nodup env st subj pred obj nid ts pt
      hp hsid hoid hpt hdom hran hnodup, ?_⟩
    refine create_association_dup env _ subj pred obj nid2 ts2 pt
      hp hsid hoid hpt hdom hran ?_
    exact ⟨⟨nid, subj.rid, subj.rtype, pred, obj.rid, obj.rtype, ts, false⟩,
      List.mem_append_right st (List.mem_singleton.mpr rfl), rfl, rfl, rfl, rfl⟩

/-- Witness for C1: on an empty store, creating the first association for a
valid predicate succeeds and persists it. -/
theorem claim_C1_witness :
    create_association
      ⟨fun p => if p = "P" then some ⟨["S"], ["O"]⟩ else none, fun _ => []⟩
      [] ⟨"s1", "S"⟩ "P" ⟨"o1", "O"⟩ "A1" 7 =
      .ok (⟨"A1", "s1", "S", "P", "o1", "O", 7, false⟩,
           [⟨"A1", "s1", "S", "P", "o1", "O", 7, false⟩]) := by
  have h := claim_C1 ⟨fun p => if p = "P" then some ⟨["S"], ["O"]⟩ else none, fun _ => []⟩
    [] ⟨"s1", "S"⟩ "P" ⟨"o1", "O"⟩ "A1" "A2" 7 8 ⟨["S"], ["O"]⟩
    (by decide) (by decide) (by decide) (by decide) (by decide) (by decide)
  have h2 := h.2.1 (by simp)
  simpa using h2.1

/-! ## Endpoint type checking -/

theorem predTypeOk_iff (env : TypeEnv) (t : String) (allowed : List String) :
    predTypeOk env t allowed = true ↔
      t ∈ allowed ∨ ∃ d ∈ allowed, t ∈ env.getextends d := by
  simp [predTypeOk, List.any_eq_true]

theorem create_association_illS (env : TypeEnv) (st : List Assoc) (subj : IonRef)
    (pred : String) (obj : IonRef) (nid : String) (ts : Nat) (pt : PredDef)
    (hp : pred ≠ "") (hsid : subj.rid ≠ "") (hoid : obj.rid ≠ "")
    (hpt : env.preds pred = some pt)
    (hS : predTypeOk env subj.rtype pt.domain = false) :
    create_association env st subj pred obj nid ts =
      .error (.badRequest "Illegal subject type for predicate") := by
  simp [create_association, hp, hsid, hoid, hpt, hS]

theorem create_association_illO (env : TypeEnv) (st : List Assoc) (subj : IonRef)
    (pred : String) (obj : IonRef) (nid : String) (ts : Nat) (pt : PredDef)
    (hp : pred ≠ "") (hsid : subj.rid ≠ "") (hoid : obj.rid ≠ "")
    (hpt : env.preds pred = some pt)
    (hS : predTypeOk env subj.rtype pt.domain = true)
    (hO : predTypeOk env obj.rtype pt.range = false) :
    create_association env st subj pred obj nid ts =
      .error (.badRequest "Illegal object type for predicate") := by
  simp [create_association, hp, hsid, hoid, hpt, hS, hO]

/-- C2: for a known predicate with domain `D` and range `R`,
`create_association` fails with the illegal-type `BadRequest` exactly when
the subject's concrete type is neither a member of `D` nor in the
`getextends` closure of some type in `D`, or symmetrically the object's
type fails against `R`; `predTypeOk` is exactly that membership test, and
when the subject type is a member of `D` and the object type a member of
`R`, no illegal-type error is raised. -/
theorem claim_C2 (env : TypeEnv) (st : List Assoc) (subj : IonRef) (pred : String)
    (obj : IonRef) (nid : String) (ts : Nat) (pt : PredDef)
    (hp : pred ≠ "") (hsid : subj.rid ≠ "") (hoid : obj.rid ≠ "")
    (hpt : env.preds pred = some pt) :
    ((create_association env st subj pred obj nid ts =
        .error (.badRequest "Illegal subject type for predicate") ∨
      create_association env st subj pred obj nid ts =
        .error (.badRequest "Illegal object type for predicate")) ↔
      (¬(subj.rtype ∈ pt.domain ∨ ∃ d ∈ pt.domain, subj.rtype ∈ env.getextends d) ∨
       ¬(obj.rtype ∈ pt.range ∨ ∃ d ∈ pt.range, obj.rtype ∈ env.getextends d))) ∧
    (predTypeOk env subj.rtype pt.domain = true ↔
      (subj.rtype ∈ pt.domain ∨ ∃ d ∈ pt.domain, subj.rtype ∈ env.getextends d)) ∧
    (predTypeOk env obj.rtype pt.range = true ↔
      (obj.rtype ∈ pt.range ∨ ∃ d ∈ pt.range, obj.rtype ∈ env.getextends d)) ∧
    (subj.rtype ∈ pt.domain → obj.rtype ∈ pt.range →
      create_association env st subj pred obj nid ts ≠
        .error (.badRequest "Illegal subject type for predicate") ∧
      create_association env st subj pred obj nid ts ≠
        .error (.badRequest "Illegal object type for predicate")) := by
  have hiffS := predTypeOk_iff env subj.rtype pt.domain
  have hiffO := predTypeOk_iff env obj.rtype pt.range
  have hA : (create_association env st subj pred obj nid ts =
        .error (.badRequest "Illegal subject type for predicate") ∨
      create_association env st subj pred obj nid ts =
        .error (.badRequest "Illegal object type for predicate")) ↔
      (¬(subj.rtype ∈ pt.domain ∨ ∃ d ∈ pt.domain, subj.rtype ∈ env.getextends d) ∨
       ¬(obj.rtype ∈ pt.range ∨ ∃ d ∈ pt.range, obj.rtype ∈ env.getextends d)) := by
    by_cases hS : predTypeOk env subj.rtype pt.domain = true
    · by_cases hO : predTypeOk env obj.rtype pt.range = true
      · apply iff_of_false
        · by_cases hdup : ∃ a ∈ st,
              a.retired = false ∧ a.s = subj.rid ∧ a.o = obj.rid ∧ a.p = pred
          · rw [create_association_dup env st subj pred obj nid ts pt
              hp hsid hoid hpt hS hO hdup]
            rintro (h | h) <;> simp at h
          · rw [create_association_nodup env st subj pred obj nid ts pt
              hp hsid hoid hpt hS hO hdup]
            rintro (h | h) <;> simp at h
        · rintro (hns | hno)
          · exact hns (hiffS.mp hS)
          · exact hno (hiffO.mp hO)
      · have hO' : predTypeOk env obj.rtype pt.range = false := by
          simpa using hO
        apply iff_of_true
        · exact Or.inr (create_association_illO env st subj pred obj nid ts pt
            hp hsid hoid hpt hS hO')
        · refine Or.inr fun hmem => ?_
          rw [← hiffO] at hmem
          rw [hO'] at hmem
          exact Bool.false_ne_true hmem
    · have hS' : predTypeOk env subj.rtype pt.domain = false := by
        simpa using hS
      apply iff_of_true
      · exact Or.inl (create_association_illS env st subj pred obj nid ts pt
          hp hsid hoid hpt hS')
      · refine Or.inl fun hmem => ?_
        rw [← hiffS] at hmem
        rw [hS'] at hmem
        exact Bool.false_ne_true hmem
  refine ⟨hA, hiffS, hiffO, ?_⟩
  intro hdm hrm
  constructor
  · intro h
    rcases hA.mp (Or.inl h) with hns | hno
    · exact hns (Or.inl hdm)
    · exact hno (Or.inl hrm)
  · intro h
    rcases hA.mp (Or.inr h) with hns | hno
    · exact hns (Or.inl hdm)
    · exact hno (Or.inl hrm)

/-- Witness for C2: with subject type in the domain and object type in the
range, no illegal-type error is raised. -/
theorem claim_C2_witness :
    create_association
      ⟨fun p => if p = "P" then some ⟨["S"], ["O"]⟩ else none, fun _ => []⟩
      [] ⟨"s1", "S"⟩ "P" ⟨"o1", "O"⟩ "A1" 0 ≠
      .error (.badRequest "Illegal subject type for predicate") := by
  have h := claim_C2 ⟨fun p => if p = "P" then some ⟨["S"], ["O"]⟩ else none, fun _ => []⟩
    [] ⟨"s1", "S"⟩ "P" ⟨"o1", "O"⟩ "A1" 0 ⟨["S"], ["O"]⟩
    (by decide) (by decide) (by decide) (by decide)
  exact (h.2.2.2 (by decide) (by decide)).1

/-! ## Cascade deletion through the any-side index -/

theorem find_associations_anyside (assocs : List Assoc) (d : String) (hd : d ≠ "") :
    find_associations assocs "" "" "" (.one d) =
      .ok ((multiKeyRows [d] (byIdRows assocs)).map (·.val)) := by
  simp [find_associations, anyTruthy, anyIsMany, hd]

theorem find_associations_anyside_mem (assocs : List Assoc) (d : String) (hd : d ≠ "")
    (a : Assoc) :
    a ∈ exceptListOf (find_associations assocs "" "" "" (.one d)) ↔
      a ∈ assocs ∧ a.retired = false ∧ (a.s = d ∨ a.o = d) := by
  rw [find_associations_anyside assocs d hd]
  simp only [exceptListOf, multiKeyRows, List.flatMap_cons, List.flatMap_nil,
    List.append_nil]
  constructor
  · intro h
    obtain ⟨row, hrow, hval⟩ := List.mem_map.mp h
    simp only [List.mem_filter, decide_eq_true_eq] at hrow
    obtain ⟨hmem, hkey⟩ := hrow
    obtain ⟨b, hb, hbret, hbrow⟩ := (mem_byIdRows assocs row).mp hmem
    rcases hbrow with rfl | rfl
    · simp only [List.cons.injEq, KElem.str.injEq, and_true] at hkey
      cases hval
      exact ⟨hb, hbret, Or.inl hkey⟩
    · simp only [List.cons.injEq, KElem.str.injEq, and_true] at hkey
      cases hval
      exact ⟨hb, hbret, Or.inr hkey⟩
  · rintro ⟨ha, hret, hda | hda⟩
    · refine List.mem_map.mpr ⟨⟨a.rid, [KElem.str a.s], a⟩, ?_, rfl⟩
      simp only [List.mem_filter, decide_eq_true_eq]
      exact ⟨(mem_byIdRows assocs _).mpr ⟨a, ha, hret, Or.inl rfl⟩, by rw [hda]⟩
    · refine List.mem_map.mpr ⟨⟨a.rid, [KElem.str a.o], a⟩, ?_, rfl⟩
      simp only [List.mem_filter, decide_eq_true_eq]
      exact ⟨(mem_byIdRows assocs _).mpr ⟨a, ha, hret, Or.inr rfl⟩, by rw [hda]⟩

/-- C5: deleting a document with cascade first finds, via the any-side
index, every association in which the document appears as subject or
object and deletes them, so an any-side lookup afterwards returns empty;
deleting without cascade leaves all associations in place, only reports a
warning exactly when a non-retired association still references the
document, and the document deletion proceeds regardless. -/
theorem claim_C5 (st : DSState) (d : String) (hd : d ≠ "") :
    (∃ out, delete_doc st d true = .ok out) ∧
    (∀ st' w, delete_doc st d true = .ok (st', w) →
      (∀ a ∈ st.assocs, a.retired = false → (a.s = d ∨ a.o = d) → a ∉ st'.assocs) ∧
      find_associations st'.assocs "" "" "" (.one d) = .ok [] ∧
      st'.docs = st.docs.filter (· ≠ d)) ∧
    (∀ st' w, delete_doc st d false = .ok (st', w) →
      st'.assocs = st.assocs ∧ st'.docs = st.docs.filter (· ≠ d) ∧
      (w = true ↔ ∃ a ∈ st.assocs, a.retired = false ∧ (a.s = d ∨ a.o = d))) ∧
    (∃ out, delete_doc st d false = .ok out) := by
  have hfound := find_associations_anyside st.assocs d hd
  have hmem := fun a => find_associations_anyside_mem st.assocs d hd a
  rw [hfound] at hmem
  simp only [exceptListOf] at hmem
  have htrue : delete_doc st d true = .ok (⟨st.docs.filter (· ≠ d),
      st.assocs.filter fun a =>
        ((((multiKeyRows [d] (byIdRows st.assocs)).map (·.val)).map
          (·.rid)).contains a.rid) = false⟩, false) := by
    simp [delete_doc, hfound]
  have hfalse : delete_doc st d false = .ok (⟨st.docs.filter (· ≠ d), st.assocs⟩,
      !((multiKeyRows [d] (byIdRows st.assocs)).map (·.val)).isEmpty) := by
    simp [delete_doc, hfound]
  refine ⟨⟨_, htrue⟩, ?_, ?_, ⟨_, hfalse⟩⟩
  · intro st' w h
    rw [htrue] at h
    simp only [Except.ok.injEq, Prod.mk.injEq] at h
    obtain ⟨hst, -⟩ := h
    subst hst
    have hgone : ∀ a ∈ st.assocs, a.retired = false → (a.s = d ∨ a.o = d) →
        a ∉ (st.assocs.filter fun a =>
          ((((multiKeyRows [d] (byIdRows st.assocs)).map (·.val)).map
            (·.rid)).contains a.rid) = false) := by
      intro a ha hret htouch hin
      have hinfound : a ∈ (multiKeyRows [d] (byIdRows st.assocs)).map (·.val) :=
        (hmem a).mpr ⟨ha, hret, htouch⟩
      have hridmem : a.rid ∈
          ((multiKeyRows [d] (byIdRows st.assocs)).map (·.val)).map (·.rid) :=
        List.mem_map.mpr ⟨a, hinfound, rfl⟩
      have hc := (List.mem_filter.mp hin).2
      simp only [decide_eq_true_eq] at hc
      rw [List.contains_eq_any_beq] at hc
      simp only [List.any_eq_false, beq_iff_eq] at hc
      exact hc a.rid hridmem rfl
    refine ⟨hgone, ?_, rfl⟩
    rw [find_associations_anyside _ d hd]
    have hnil : (multiKeyRows [d] (byIdRows (st.assocs.filter fun a =>
        ((((multiKeyRows [d] (byIdRows st.assocs)).map (·.val)).map
          (·.rid)).contains a.rid) = false))).map (·.val) = [] := by
      rw [List.eq_nil_iff_forall_not_mem]
      intro a hin
      have hiff := find_associations_anyside_mem (st.assocs.filter fun a =>
        ((((multiKeyRows [d] (byIdRows st.assocs)).map (·.val)).map
          (·.rid)).contains a.rid) = false) d hd a
      rw [find_associations_anyside _ d hd] at hiff
      simp only [exceptListOf] at hiff
      obtain ⟨hafilter, hret, htouch⟩ := hiff.mp hin
      have ha : a ∈ st.assocs := (List.mem_filter.mp hafilter).1
      exact hgone a ha hret htouch hafilter
    rw [hnil]
  · intro st' w h
    rw [hfalse] at h
    simp only [Except.ok.injEq, Prod.mk.injEq] at h
    obtain ⟨hst, hw⟩ := h
    subst hst
    refine ⟨rfl, rfl, ?_⟩
    rw [← hw]
    constructor
    · intro hne
      cases hfe : (multiKeyRows [d] (byIdRows st.assocs)).map (·.val) with
      | nil => rw [hfe] at hne; simp at hne
      | cons x xs =>
        have hx : x ∈ (multiKeyRows [d] (byIdRows st.assocs)).map (·.val) := by
          rw [hfe]
          exact List.mem_cons_self x xs
        obtain ⟨hxa, hxr, hxt⟩ := (hmem x).mp hx
        exact ⟨x, hxa, hxr, hxt⟩
    · rintro ⟨a, ha, hret, htouch⟩
      have hax : a ∈ (multiKeyRows [d] (byIdRows st.assocs)).map (·.val) :=
        (hmem a).mpr ⟨ha, hret, htouch⟩
      cases hfe : (multiKeyRows [d] (byIdRows st.assocs)).map (·.val) with
      | nil => rw [hfe] at hax; exact absurd hax (List.not_mem_nil a)
      | cons x xs => simp [hfe]

/-- Witness for C5 at a concrete two-document, one-edge store. -/
theorem claim_C5_witness :
    ∃ out,
      delete_doc ⟨["d1", "d2"], [⟨"A1", "d1", "T", "P", "d2", "T", 0, false⟩]⟩ "d1" true =
        .ok out :=
  (claim_C5 ⟨["d1", "d2"], [⟨"A1", "d1", "T", "P", "d2", "T", 0, false⟩]⟩ "d1"
    (by decide)).1

/-! ## The resource query dispatcher -/

/-- C6 counterexample: supplying both `name` and `keyword` is answered via
the by-name query (the keyword is silently ignored), not rejected with
`BadRequest`. -/
theorem claim_C6_cex :
    find_resources_ext "" "" "x" "y" "" "" "" "" none = .ok (.byName "x" "") ∧
    find_resources_ext "" "" "x" "y" "" "" "" "" none ≠
      .error (.badRequest "find by name does not support lcstate") := by
  constructor
  · rfl
  · intro h
    rw [show find_resources_ext "" "" "x" "y" "" "" "" "" none =
      .ok (.byName "x" "") from rfl] at h
    exact Except.noConfusion h

set_option maxHeartbeats 2000000 in
/-- C6 (amended): the dispatcher tries the qualifier groups in priority
order (name, keyword, alt id, nested type, type+attribute, type+lcstate,
type, lcstate); the first group present is answered and qualifiers of later
groups are silently ignored; the only combination rejected with
`BadRequest` is `name` together with `lcstate`, and the dispatcher never
falls off the end of the chain. -/
theorem claim_C6 (restype lcstate name keyword nested_type attr_name attr_value
    alt_id : String) (alt_id_ns : Option String) :
    (name ≠ "" → lcstate ≠ "" →
      find_resources_ext restype lcstate name keyword nested_type attr_name
        attr_value alt_id alt_id_ns =
        .error (.badRequest "find by name does not support lcstate")) ∧
    (∀ e, find_resources_ext restype lcstate name keyword nested_type attr_name
        attr_value alt_id alt_id_ns = .error e →
      name ≠ "" ∧ lcstate ≠ "" ∧ e = .badRequest "find by name does not support lcstate") ∧
    (name ≠ "" → lcstate = "" →
      find_resources_ext restype lcstate name keyword nested_type attr_name
        attr_value alt_id alt_id_ns = .ok (.byName name restype)) ∧
    (name = "" → keyword ≠ "" →
      find_resources_ext restype lcstate name keyword nested_type attr_name
        attr_value alt_id alt_id_ns = .ok (.byKeyword keyword restype)) ∧
    (name = "" → keyword = "" → (alt_id ≠ "" ∨ optTruthy alt_id_ns = true) →
      find_resources_ext restype lcstate name keyword nested_type attr_name
        attr_value alt_id alt_id_ns = .ok (.byAltid alt_id alt_id_ns)) ∧
    (find_resources_ext restype lcstate name keyword nested_type attr_name
        attr_value alt_id alt_id_ns ≠ .ok .pyNone) := by
  refine ⟨?_, ?_, ?_, ?_, ?_, ?_⟩
  · intro hn hl
    simp [find_resources_ext, hn, hl]
  · intro e h
    unfold find_resources_ext at h
    split_ifs at h <;> simp_all
  · intro hn hl
    simp [find_resources_ext, hn, hl]
  · intro hn hk
    simp [find_resources_ext, hn, hk]
  · intro hn hk halt
    simp [find_resources_ext, hn, hk, halt]
  · intro h
    unfold find_resources_ext at h
    split_ifs at h <;> simp_all

/-- Witness for C6: a by-name call with no lcstate is answered by the
by-name query. -/
theorem claim_C6_witness :
    find_resources_ext "T" "" "x" "" "" "" "" "" none = .ok (.byName "x" "T") := by
  have h := claim_C6 "T" "" "x" "" "" "" "" "" none
  exact h.2.2.1 (by decide) rfl

/-- C10 counterexample: with `attr_name` supplied, empty `restype`, no
name/keyword/alt-id/nested-type qualifier but a non-empty `lcstate`, the
call does not fall through to the no-qualifier branch: it is answered by
the lcstate query. -/
theorem claim_C10_cex :
    find_resources_ext "" "DEPLOYED" "" "" "" "attr1" "" "" none =
      .ok (.byLcstate "DEPLOYED" "") ∧
    find_resources_ext "" "DEPLOYED" "" "" "" "attr1" "" "" none ≠
      .ok QueryCall.byTypeAll := by
  constructor
  · rfl
  · intro h
    rw [show find_resources_ext "" "DEPLOYED" "" "" "" "attr1" "" "" none =
      .ok (.byLcstate "DEPLOYED" "") from rfl] at h
    simp at h

/-- C10 (amended): a call supplying `attr_name` (with or without
`attr_value`) but an empty `restype`, no name, keyword, alt-id,
nested-type or lcstate qualifier, silently ignores the attribute arguments
and falls through to the no-qualifier branch returning all non-retired
resources. -/
theorem claim_C10 (attr_name attr_value : String) (ha : attr_name ≠ "") :
    find_resources_ext "" "" "" "" "" attr_name attr_value "" none =
      .ok .byTypeAll := by
  simp [find_resources_ext, optTruthy]

/-- Witness for C10 at a concrete attribute query. -/
theorem claim_C10_witness :
    find_resources_ext "" "" "" "" "" "contact.email" "a@b.c" "" none =
      .ok .byTypeAll :=
  claim_C10 "contact.email" "a@b.c" (by decide)

/-! ## Lifecycle-state key construction -/

theorem splitChar_ne_nil (c : Char) (l : List Char) : splitChar c l ≠ [] := by
  induction l with
  | nil => simp [splitChar]
  | cons x xs ih =>
    by_cases hx : x = c
    · simp [splitChar, hx]
    · simp only [splitChar, if_neg hx]
      rcases hsp : splitChar c xs with _ | ⟨y, ys⟩
      · exact absurd hsp ih
      · simp

theorem splitChar_head (c : Char) (l : List Char) :
    (splitChar c l).headD [] = l.takeWhile (fun x => x != c) := by
  induction l with
  | nil => rfl
  | cons x xs ih =>
    by_cases hx : x = c
    · subst hx
      simp [splitChar, List.takeWhile_cons_of_neg]
    · simp only [splitChar, if_neg hx]
      rcases hsp : splitChar c xs with _ | ⟨y, ys⟩
      · exact absurd hsp (splitChar_ne_nil c xs)
      · simp only [List.headD_cons]
        rw [List.takeWhile_cons_of_pos (by simp [hx])]
        rw [hsp] at ih
        simp only [List.headD_cons] at ih
        rw [ih]

theorem takeWhile_all {α : Type} (p : α → Bool) (l : List α) (h : ∀ x ∈ l, p x = true) :
    l.takeWhile p = l := by
  induction l with
  | nil => rfl
  | cons x xs ih =>
    rw [List.takeWhile_cons_of_pos (h x (List.mem_cons_self x xs))]
    rw [ih fun y hy => h y (List.mem_cons_of_mem x hy)]

theorem string_mk_data (s : String) : String.mk s.data = s := by
  cases s
  rfl

theorem lcstate_trunc_eq (s : String) :
    (if s.data.contains '_' = true then (splitStr s '_').headD s else s) =
      ⟨s.data.takeWhile (fun x => x != '_')⟩ := by
  by_cases h : s.data.contains '_' = true
  · rw [if_pos h]
    rcases hsp : splitChar '_' s.data with _ | ⟨y, ys⟩
    · exact absurd hsp (splitChar_ne_nil _ _)
    · have hh := splitChar_head '_' s.data
      rw [hsp] at hh
      simp only [List.headD_cons] at hh
      simp [splitStr, hsp, hh]
  · rw [if_neg h]
    have hnm : '_' ∉ s.data := by
      intro hmem
      exact h (by simpa using hmem)
    have hall : ∀ x ∈ s.data, (x != '_') = true := by
      intro x hx
      simp only [bne_iff_ne, ne_eq]
      intro heq
      exact hnm (heq ▸ hx)
    rw [takeWhile_all _ _ hall, string_mk_data]

theorem find_res_by_lcstate_key_eq (avail : List String) (store : List Resource)
    (lcstate restype : String) :
    (find_res_by_lcstate avail store lcstate restype).2.1 =
      (if avail.contains ⟨lcstate.data.takeWhile (fun x => x != '_')⟩ = true then
        [KElem.num 1, KElem.str ⟨lcstate.data.takeWhile (fun x => x != '_')⟩]
       else [KElem.num 0, KElem.str ⟨lcstate.data.takeWhile (fun x => x != '_')⟩]) ++
      (if restype ≠ "" then [KElem.str restype] else []) := by
  have h := lcstate_trunc_eq lcstate
  simp only [find_res_by_lcstate, h]

/-- C7: `find_res_by_lcstate` warns exactly when the caller state contains
an underscore and then uses only the prefix before the first `_` as the
state; the resulting scan key starts with axis 1 when the (truncated)
state is an availability state and axis 0 otherwise, followed by the state
and, when supplied, the resource type. -/
theorem claim_C7 (avail : List String) (store : List Resource)
    (lcstate restype : String) :
    (find_res_by_lcstate avail store lcstate restype).1 = lcstate.data.contains '_' ∧
    (avail.contains ⟨lcstate.data.takeWhile (fun x => x != '_')⟩ = true →
      (find_res_by_lcstate avail store lcstate restype).2.1 =
        [KElem.num 1, KElem.str ⟨lcstate.data.takeWhile (fun x => x != '_')⟩] ++
        (if restype ≠ "" then [KElem.str restype] else [])) ∧
    (avail.contains ⟨lcstate.data.takeWhile (fun x => x != '_')⟩ = false →
      (find_res_by_lcstate avail store lcstate restype).2.1 =
        [KElem.num 0, KElem.str ⟨lcstate.data.takeWhile (fun x => x != '_')⟩] ++
        (if restype ≠ "" then [KElem.str restype] else [])) := by
  refine ⟨rfl, ?_, ?_⟩
  · intro h
    rw [find_res_by_lcstate_key_eq, if_pos h]
  · intro h
    have h' : ¬(avail.contains
        (⟨lcstate.data.takeWhile (fun x => x != '_')⟩ : String) = true) := by
      rw [h]
      exact Bool.false_ne_true
    rw [find_res_by_lcstate_key_eq, if_neg h']

/-- Witness for C7: a compound maturity state is truncated at the first
underscore and scanned on axis 0. -/
theorem claim_C7_witness :
    (find_res_by_lcstate ["AVAILABLE"] [] "DEPLOYED_AVAILABLE" "T").1 = true ∧
    (find_res_by_lcstate ["AVAILABLE"] [] "DEPLOYED_AVAILABLE" "T").2.1 =
      [KElem.num 0, KElem.str "DEPLOYED", KElem.str "T"] := by
  have h := claim_C7 ["AVAILABLE"] [] "DEPLOYED_AVAILABLE" "T"
  refine ⟨by rw [h.1]; decide, ?_⟩
  rw [h.2.2 (by decide)]
  decide

/-! ## Alternate-id index -/

theorem splitChar_of_not_mem (c : Char) (l : List Char) (h : c ∉ l) :
    splitChar c l = [l] := by
  induction l with
  | nil => rfl
  | cons x xs ih =>
    have hx : x ≠ c := fun he => h (he ▸ List.mem_cons_self x xs)
    simp only [splitChar, if_neg hx]
    rw [ih fun hm => h (List.mem_cons_of_mem x hm)]

theorem altIdKey_two (entry ns v : String) (h : splitStr entry ':' = [ns, v]) :
    altIdKey entry = [KElem.str v, KElem.str ns] := by
  simp [altIdKey, h]

theorem altIdKey_fallback (entry : String) (h : (splitStr entry ':').length ≠ 2) :
    altIdKey entry = [KElem.str entry, KElem.str "_"] := by
  simp [altIdKey, h]

theorem altIdKey_no_colon (entry : String) (h : entry.data.contains ':' = false) :
    altIdKey entry = [KElem.str entry, KElem.str "_"] := by
  have hnm : ':' ∉ entry.data := by
    intro hm
    rw [show entry.data.contains ':' = true by simpa using hm] at h
    exact Bool.noConfusion h
  have hsp : splitStr entry ':' = [⟨entry.data⟩] := by
    simp [splitStr, splitChar_of_not_mem ':' entry.data hnm]
  apply altIdKey_fallback
  rw [hsp]
  simp

theorem find_res_by_altid_unnamespaced (store : List Resource) (r : Resource)
    (a : String) (hr : r ∈ store) (ht : r.type_ ≠ "") (hl : r.lcstate ≠ "RETIRED")
    (ha : a ∈ r.alt_ids) (hnc : a.data.contains ':' = false) :
    (⟨a, "_", r.rid⟩ : ResAssocA) ∈ find_res_by_alternative_id store a none := by
  have hkey := altIdKey_no_colon a hnc
  have hrowmem : (⟨r.rid, altIdKey a, ()⟩ : VRow Unit) ∈ byAltidRows store :=
    (mem_byAltidRows store _).mpr
      ⟨r, hr, Or.inl ⟨⟨ht, List.ne_nil_of_mem ha, hl⟩, a, ha, rfl⟩⟩
  simp only [find_res_by_alternative_id]
  rw [if_neg (by simp [optTruthy])]
  refine List.mem_map.mpr ⟨⟨r.rid, altIdKey a, ()⟩, ?_, ?_⟩
  · refine (mem_prefixScan_all _ _ (fun x hx => byAltidRows_noEmax hx) _).mpr
      ⟨hrowmem, ?_⟩
    by_cases haq : a = ""
    · rw [if_neg (by simp [haq])]
      exact List.nil_prefix
    · rw [if_pos haq]
      rw [hkey]
      simp [List.cons_prefix_cons]
  · rw [hkey]
    simp [keyStrAt]

/-- C8: the by-altid index emits the key `[value, namespace]` when an
`alt_ids` entry splits on `":"` into exactly two parts, and falls back to
`[entry, "_"]` for every other entry, in particular for entries with no
colon; consequently `find_res_by_alternative_id` finds un-namespaced
alt-ids under namespace `"_"`. -/
theorem claim_C8 :
    (∀ entry ns v : String, splitStr entry ':' = [ns, v] →
      altIdKey entry = [KElem.str v, KElem.str ns]) ∧
    (∀ entry : String, (splitStr entry ':').length ≠ 2 →
      altIdKey entry = [KElem.str entry, KElem.str "_"]) ∧
    (∀ entry : String, entry.data.contains ':' = false →
      altIdKey entry = [KElem.str entry, KElem.str "_"]) ∧
    (∀ (store : List Resource) (r : Resource) (a : String), r ∈ store →
      r.type_ ≠ "" → r.lcstate ≠ "RETIRED" → a ∈ r.alt_ids →
      a.data.contains ':' = false →
      (⟨a, "_", r.rid⟩ : ResAssocA) ∈ find_res_by_alternative_id store a none) :=
  ⟨altIdKey_two, altIdKey_fallback, altIdKey_no_colon,
   fun store r a hr ht hl ha hnc =>
     find_res_by_altid_unnamespaced store r a hr ht hl ha hnc⟩

/-- Witness for C8: a colon-free alt-id of a live resource is found under
namespace `"_"`. -/
theorem claim_C8_witness :
    (⟨"plain", "_", "r1"⟩ : ResAssocA) ∈
      find_res_by_alternative_id
        [⟨"r1", "T", "DEPLOYED", "AVAILABLE", "n", [], ["plain"], ""⟩] "plain" none := by
  exact claim_C8.2.2.2 [⟨"r1", "T", "DEPLOYED", "AVAILABLE", "n", [], ["plain"], ""⟩]
    ⟨"r1", "T", "DEPLOYED", "AVAILABLE", "n", [], ["plain"], ""⟩ "plain"
    (by decide) (by decide) (by decide) (by decide) (by decide)

/-! ## Find by type: exact membership and (type, name) ordering -/

theorem keyLE_pair_imp (t1 n1 t2 n2 i1 i2 : String)
    (h : keyLE [KElem.str t1, KElem.str n1] [KElem.str t2, KElem.str n2] = true) :
    resTypeNameLE ⟨t1, n1, i1⟩ ⟨t2, n2, i2⟩ := by
  unfold resTypeNameLE
  by_cases ht : t1 = t2
  · subst ht
    rw [if_pos rfl]
    simp only [keyLE, if_pos rfl] at h
    by_cases hn : n1 = n2
    · subst hn
      exact strLE_refl n1
    · have hne : KElem.str n1 ≠ KElem.str n2 := by simp [hn]
      simp only [keyLE, if_neg hne] at h
      simpa [kelemLE] using h
  · rw [if_neg ht]
    have hne : KElem.str t1 ≠ KElem.str t2 := by simp [ht]
    simp only [keyLE, if_neg hne] at h
    simpa [kelemLE] using h

theorem byTypeRows_pairwise (store : List Resource) :
    (byTypeRows store).Pairwise (fun a b => keyLE a.key b.key = true) := by
  unfold byTypeRows
  exact sortRows_sorted _

theorem byType_result_pairwise (store : List Resource) (rows : List (VRow Unit))
    (hsub : rows.Sublist (byTypeRows store)) :
    (rows.map fun row =>
      (⟨keyStrAt row.key 0, keyStrAt row.key 1, row.rid⟩ : ResAssocT)).Pairwise
      resTypeNameLE := by
  have hsorted : rows.Pairwise (fun a b => keyLE a.key b.key = true) :=
    List.Pairwise.sublist hsub (byTypeRows_pairwise store)
  rw [List.pairwise_map]
  refine List.Pairwise.imp_of_mem ?_ hsorted
  intro a b hma hmb hab
  obtain ⟨r1, -, -, -, rfl⟩ := (mem_byTypeRows store a).mp (hsub.subset hma)
  obtain ⟨r2, -, -, -, rfl⟩ := (mem_byTypeRows store b).mp (hsub.subset hmb)
  exact keyLE_pair_imp _ _ _ _ _ _ hab

theorem find_res_by_type_eq (store : List Resource) (restype : String) :
    find_res_by_type store restype "" =
      .ok ((if restype ≠ "" then prefixScan [KElem.str restype] (byTypeRows store)
            else byTypeRows store).map
        fun row => (⟨keyStrAt row.key 0, keyStrAt row.key 1, row.rid⟩ : ResAssocT)) := by
  simp [find_res_by_type]

/-- C3: with a non-empty `restype`, `find_res_by_type` returns exactly the
resources whose type equals `restype` and whose lifecycle state is not
`RETIRED`, with the name truncated to 200 characters at index time, in
`(type, name)` order; with an empty `restype` the scan covers the whole
index and returns all non-retired resources. -/
theorem claim_C3 (store : List Resource) (restype : String) :
    (restype ≠ "" →
      ∃ l, find_res_by_type store restype "" = .ok l ∧
        (∀ x, x ∈ l ↔ ∃ r ∈ store, r.lcstate ≠ "RETIRED" ∧ r.type_ = restype ∧
          x = ⟨restype, strTake r.name 200, r.rid⟩) ∧
        l.Pairwise resTypeNameLE) ∧
    ((∀ r ∈ store, r.type_ ≠ "") →
      ∃ l, find_res_by_type store "" "" = .ok l ∧
        (∀ x, x ∈ l ↔ ∃ r ∈ store, r.lcstate ≠ "RETIRED" ∧
          x = ⟨r.type_, strTake r.name 200, r.rid⟩) ∧
        l.Pairwise resTypeNameLE) := by
  constructor
  · intro hrt
    refine ⟨_, by rw [find_res_by_type_eq, if_pos hrt], ?_, ?_⟩
    · intro x
      constructor
      · intro h
        obtain ⟨row, hrow, hx⟩ := List.mem_map.mp h
        obtain ⟨hrmem, hpre⟩ :=
          (mem_prefixScan_all _ _ (fun y hy => byTypeRows_noEmax hy) row).mp hrow
        obtain ⟨r, hr, htype, hlc, rfl⟩ := (mem_byTypeRows store row).mp hrmem
        simp only [List.cons_prefix_cons, KElem.str.injEq] at hpre
        refine ⟨r, hr, hlc, hpre.1.symm, ?_⟩
        rw [← hx]
        simp [keyStrAt, hpre.1]
      · rintro ⟨r, hr, hlc, htype, rfl⟩
        refine List.mem_map.mpr
          ⟨⟨r.rid, [KElem.str r.type_, KElem.str (strTake r.name 200)], ()⟩, ?_, ?_⟩
        · refine (mem_prefixScan_all _ _ (fun y hy => byTypeRows_noEmax hy) _).mpr
            ⟨(mem_byTypeRows store _).mpr ⟨r, hr, htype ▸ hrt, hlc, rfl⟩, ?_⟩
          simp [List.cons_prefix_cons, htype]
        · simp [keyStrAt, htype]
    · exact byType_result_pairwise store _ (List.filter_sublist _)
  · intro hwf
    refine ⟨_, by rw [find_res_by_type_eq], ?_, ?_⟩
    · intro x
      rw [if_neg (by simp)]
      constructor
      · intro h
        obtain ⟨row, hrow, hx⟩ := List.mem_map.mp h
        obtain ⟨r, hr, htype, hlc, rfl⟩ := (mem_byTypeRows store row).mp hrow
        refine ⟨r, hr, hlc, ?_⟩
        rw [← hx]
        simp [keyStrAt]
      · rintro ⟨r, hr, hlc, rfl⟩
        refine List.mem_map.mpr
          ⟨⟨r.rid, [KElem.str r.type_, KElem.str (strTake r.name 200)], ()⟩, ?_, ?_⟩
        · exact (mem_byTypeRows store _).mpr ⟨r, hr, hwf r hr, hlc, rfl⟩
        · simp [keyStrAt]
    · rw [if_neg (by simp)]
      exact byType_result_pairwise store _ (List.Sublist.refl _)

/-- Witness for C3 at the spec's three-resource scenario. -/
theorem claim_C3_witness :
    ∃ l, find_res_by_type
      [⟨"r1", "A", "DEPLOYED", "AVAILABLE", "alpha", [], [], ""⟩,
       ⟨"r2", "A", "DEPLOYED", "AVAILABLE", "beta", [], [], ""⟩,
       ⟨"r3", "B", "DEPLOYED", "AVAILABLE", "alpha", [], [], ""⟩] "A" "" = .ok l ∧
      (⟨"A", "alpha", "r1"⟩ : ResAssocT) ∈ l ∧
      (⟨"A", "beta", "r2"⟩ : ResAssocT) ∈ l ∧
      (⟨"B", "alpha", "r3"⟩ : ResAssocT) ∉ l := by
  obtain ⟨l, hl, hmem, -⟩ :=
    (claim_C3
      [⟨"r1", "A", "DEPLOYED", "AVAILABLE", "alpha", [], [], ""⟩,
       ⟨"r2", "A", "DEPLOYED", "AVAILABLE", "beta", [], [], ""⟩,
       ⟨"r3", "B", "DEPLOYED", "AVAILABLE", "alpha", [], [], ""⟩] "A").1 (by decide)
  refine ⟨l, hl, (hmem _).mpr (by decide), (hmem _).mpr (by decide), ?_⟩
  intro hmemB
  obtain ⟨r, hr, -, -, hx⟩ := (hmem _).mp hmemB
  have hBA : ("B" : String) = "A" := congrArg ResAssocT.rtype hx
  exact absurd hBA (by decide)

/-! ## Row projection -/

/-- C9: `_parse_results` recurses structurally: a results object projects
to its rows (as a list), a row to a mapping of `id`/`key`/`value`/`doc`, a
list elementwise, a document-shaped mapping (carrying `_id`) through the
external deserializer, any other mapping valuewise, and scalars pass
through unchanged; a store failure to produce the rows of the named index
surfaces as `BadRequest`, while a `NotFound` raised by the deserializer
(e.g. for a resource deleted mid-scan) propagates through the recursion
rather than being swallowed. -/
theorem claim_C9 (deser : List (String × RawVal) → Except PyErr PyVal) :
    (parseResults deser (.results none) =
      .error (.badRequest "The desired resource does not exist.")) ∧
    (∀ rows vs, parseResultsList deser rows = .ok vs →
      parseResults deser (.results (some rows)) = .ok (.arr vs)) ∧
    (∀ rows e, parseResultsList deser rows = .error e →
      parseResults deser (.results (some rows)) = .error e) ∧
    (∀ xs vs, parseResultsList deser xs = .ok vs →
      parseResults deser (.arr xs) = .ok (.arr vs)) ∧
    (parseResultsList deser [] = .ok []) ∧
    (∀ x xs v vs, parseResults deser x = .ok v → parseResultsList deser xs = .ok vs →
      parseResultsList deser (x :: xs) = .ok (v :: vs)) ∧
    (∀ x xs e, parseResults deser x = .error e →
      parseResultsList deser (x :: xs) = .error e) ∧
    (∀ i k v kv vv, parseResults deser k = .ok kv → parseResults deser v = .ok vv →
      parseResults deser (.row (some i) k v none) =
        .ok (.dict [("id", .scal (.str i)), ("key", kv), ("value", vv)])) ∧
    (∀ fields, (fields.any fun f => f.1 = "_id") = true →
      parseResults deser (.dict fields) = deser fields) ∧
    (∀ fields fs, (fields.any fun f => f.1 = "_id") = false →
      parseResultsFields deser fields = .ok fs →
      parseResults deser (.dict fields) = .ok (.dict fs)) ∧
    (∀ s, parseResults deser (.scal s) = .ok (.scal s)) ∧
    (∀ fields m rest, (fields.any fun f => f.1 = "_id") = true →
      deser fields = .error (.notFound m) →
      parseResults deser (.results (some (.dict fields :: rest))) =
        .error (.notFound m)) := by
  refine ⟨rfl, ?_, ?_, ?_, rfl, ?_, ?_, ?_, ?_, ?_, fun s => rfl, ?_⟩
  · intro rows vs h
    simp [parseResults, h]
  · intro rows e h
    simp [parseResults, h]
  · intro xs vs h
    simp [parseResults, h]
  · intro x xs v vs hx hxs
    simp only [parseResultsList, hx, hxs]
    rfl
  · intro x xs e hx
    simp only [parseResultsList, hx]
    rfl
  · intro i k v kv vv hk hv
    simp only [parseResults, hk, hv]
    rfl
  · intro fields hany
    simp [parseResults, hany]
  · intro fields fs hany hfs
    simp only [parseResults, hany, hfs, Bool.false_eq_true, if_false]
    rfl
  · intro fields m rest hany hdeser
    simp only [parseResults, parseResultsList, hany, hdeser, if_true]
    rfl

/-- Witness for C9: a document-shaped mapping is handed to the external
deserializer. -/
theorem claim_C9_witness :
    parseResults (fun _ => Except.ok (PyVal.ion "X")) (.dict [("_id", .scal .null)]) =
      .ok (.ion "X") := by
  have h := claim_C9 fun _ => Except.ok (PyVal.ion "X")
  exact h.2.2.2.2.2.2.2.2.1 [("_id", RawVal.scal .null)] (by decide)
